import Mathlib

/-!
Verification of the extraction-and-recovery pipeline of the MultiModel-Doc
repository (fast_processor.py, simple_processor.py, models/qwen_client.py).

The embedding models Python values as the inductive `PyVal`, Python dicts as
insertion-ordered association lists, the regex-based cleaning steps of the
response normalizers as character-list scanners with the exact leftmost-match
semantics of `re.sub`/`re.search` on the concrete patterns appearing in the
source, and `json.loads` as a strict fueled JSON parser (escape subset:
the simple single-character escapes; numbers as rationals without exponents).
Fallible Python code (raising paths) is modelled with `Except PyErr`.
-/

/-- Python runtime values, as far as the pipeline manipulates them.
Numbers (int and float alike) are modelled as rationals. -/
inductive PyVal where
  | str : String → PyVal
  | num : ℚ → PyVal
  | bool : Bool → PyVal
  | pynull : PyVal
  | list : List PyVal → PyVal
  | dict : List (String × PyVal) → PyVal

/-- A Python dict: insertion-ordered association list with unique keys. -/
abbrev PyDict := List (String × PyVal)

/-- Exceptions that the modelled Python code can raise. -/
inductive PyErr where
  | typeError
  | keyError
  | indexError
deriving DecidableEq

/-- Dict lookup (`d[k]` / `d.get(k)`): first binding of the key. -/
def dGet (k : String) : PyDict → Option PyVal
  | [] => none
  | (k', v) :: rest => if k' = k then some v else dGet k rest

/-- Dict update (`d[k] = v`): replace in place if present, else append,
matching Python dict insertion-order semantics. -/
def dSet (k : String) (v : PyVal) : PyDict → PyDict
  | [] => [(k, v)]
  | (k', v') :: rest => if k' = k then (k, v) :: rest else (k', v') :: dSet k v rest

/-- Python truthiness of an optional dict entry (`if d.get(k):`). -/
def pyTruthy : Option PyVal → Bool
  | some (.str s) => s ≠ ""
  | some (.num q) => q ≠ 0
  | some (.bool b) => b
  | some .pynull => false
  | some (.list l) => !l.isEmpty
  | some (.dict d) => !d.isEmpty
  | none => false

/-- The backtick character, written by code point. -/
def btick : Char := Char.ofNat 96

/-- Python `\s` on ASCII: space, tab, newline, carriage return,
vertical tab, form feed. -/
def pySpace (c : Char) : Bool :=
  c = ' ' || c = '\t' || c = '\n' || c = '\r' || c = Char.ofNat 11 || c = Char.ofNat 12

/-- The characters of the opening marker of a reasoning block. -/
def thinkOpen : List Char := ['<', 't', 'h', 'i', 'n', 'k', '>']

/-- The characters of the closing marker of a reasoning block. -/
def thinkClose : List Char := ['<', '/', 't', 'h', 'i', 'n', 'k', '>']

/-- The characters of an opening Markdown fence tagged json. -/
def fenceJson : List Char := [btick, btick, btick, 'j', 's', 'o', 'n']

/-- The characters of a bare triple-backtick fence. -/
def fence3 : List Char := [btick, btick, btick]

/-- Suffix of the input after the first occurrence of the closing reasoning
marker, if any (the non-greedy end of the first `.*?` match). -/
def findClose : List Char → Option (List Char)
  | [] => none
  | c :: rest =>
    if thinkClose.isPrefixOf (c :: rest) then some ((c :: rest).drop 8)
    else findClose rest

/-- Embedding of `re.sub(r'<think>.*?</think>', '', response, flags=re.DOTALL)`:
repeatedly removes the leftmost reasoning block, resuming after the removed
span. Fuel bounds the recursion; callers pass the input length. -/
def dropThinkF : Nat → List Char → List Char
  | 0, cs => cs
  | _ + 1, [] => []
  | f + 1, c :: rest =>
    if thinkOpen.isPrefixOf (c :: rest) then
      match findClose ((c :: rest).drop 7) with
      | some suffix => dropThinkF f suffix
      | none => c :: rest
    else c :: dropThinkF f rest

/-- Embedding of the fast processor's
`re.sub(r'```json\s*|\s*```', '', response)`: at each position the first
alternative (opening fence plus greedy trailing whitespace) is tried, then the
second (greedy whitespace run followed by a bare fence); on a match, scanning
resumes after the removed span. -/
def stripFF : Nat → List Char → List Char
  | 0, cs => cs
  | _ + 1, [] => []
  | f + 1, c :: rest =>
    if fenceJson.isPrefixOf (c :: rest) then
      stripFF f (((c :: rest).drop 7).dropWhile pySpace)
    else
      let m := ((c :: rest).takeWhile pySpace).length
      if fence3.isPrefixOf ((c :: rest).drop m) then
        stripFF f ((c :: rest).drop (m + 3))
      else c :: stripFF f rest

/-- Embedding of the simple processor's `re.sub(r'```json\s*', '', response)`. -/
def stripJsonFence : Nat → List Char → List Char
  | 0, cs => cs
  | _ + 1, [] => []
  | f + 1, c :: rest =>
    if fenceJson.isPrefixOf (c :: rest) then
      stripJsonFence f (((c :: rest).drop 7).dropWhile pySpace)
    else c :: stripJsonFence f rest

/-- Embedding of the simple processor's `re.sub(r'```\s*', '', response)`. -/
def stripFence2 : Nat → List Char → List Char
  | 0, cs => cs
  | _ + 1, [] => []
  | f + 1, c :: rest =>
    if fence3.isPrefixOf (c :: rest) then
      stripFence2 f (((c :: rest).drop 3).dropWhile pySpace)
    else c :: stripFence2 f rest

/-- Scanner equivalent of the body of the fast processor's object regex
`\x7b[^\x7b\x7d]*(?:\x7b[^\x7b\x7d]*\x7d[^\x7b\x7d]*)*\x7d` after its opening
brace: depth 1 accepts non-brace characters, closes on the first top-level
closing brace, and admits one level of nested brace pairs; a second-level
opening brace aborts the whole attempt, exactly as regex backtracking does. -/
def scanLvl : Nat → List Char → Option (List Char)
  | _, [] => none
  | 1, c :: rest =>
    if c = '}' then some [c]
    else if c = '{' then (scanLvl 2 rest).map (c :: ·)
    else (scanLvl 1 rest).map (c :: ·)
  | 2, c :: rest =>
    if c = '}' then (scanLvl 1 rest).map (c :: ·)
    else if c = '{' then none
    else (scanLvl 2 rest).map (c :: ·)
  | _ + 3, _ => none
  | 0, _ => none

/-- Embedding of `re.search` with the fast processor's object pattern:
leftmost position where the one-level brace matcher succeeds. -/
def searchOne : List Char → Option (List Char)
  | [] => none
  | c :: rest =>
    if c = '{' then
      match scanLvl 1 rest with
      | some t => some (c :: t)
      | none => searchOne rest
    else searchOne rest

/-- Longest prefix of the input ending at the last closing brace, if any. -/
def lastBrace : List Char → Option (List Char)
  | [] => none
  | c :: rest =>
    match lastBrace rest with
    | some t => some (c :: t)
    | none => if c = '}' then some [c] else none

/-- Embedding of `re.search(r'\x7b.*\x7d', response, re.DOTALL)` (simple
processor): leftmost opening brace, greedy to the last closing brace. -/
def searchGreedy : List Char → Option (List Char)
  | [] => none
  | c :: rest =>
    if c = '{' then
      match lastBrace rest with
      | some t => some (c :: t)
      | none => searchGreedy rest
    else searchGreedy rest

/-- Whitespace skipping inside the JSON parser. -/
def skipWs (cs : List Char) : List Char := cs.dropWhile pySpace

/-- JSON single-character escape decoding (`\u` not modelled). -/
def decodeEscape : Char → Option Char
  | '"' => some '"'
  | '\\' => some '\\'
  | '/' => some '/'
  | 'b' => some (Char.ofNat 8)
  | 'f' => some (Char.ofNat 12)
  | 'n' => some '\n'
  | 'r' => some '\r'
  | 't' => some '\t'
  | _ => none

/-- JSON string body after the opening quote: plain characters up to the
closing quote, with the single-character escapes of JSON. -/
def parseStringBody : List Char → Option (List Char × List Char)
  | [] => none
  | c :: rest =>
    if c = '"' then some ([], rest)
    else if c = '\\' then
      match rest with
      | [] => none
      | e :: rest2 =>
        (decodeEscape e).bind fun d =>
          (parseStringBody rest2).map fun p => (d :: p.1, p.2)
    else (parseStringBody rest).map fun p => (c :: p.1, p.2)

/-- Digit run of a JSON number: value and count of consumed digits. -/
def digitsToNat (l : List Char) : Nat := l.foldl (fun a c => a * 10 + (c.toNat - 48)) 0

def trueLit : List Char := ['t', 'r', 'u', 'e']
def falseLit : List Char := ['f', 'a', 'l', 's', 'e']
def nullLit : List Char := ['n', 'u', 'l', 'l']

/-- Unsigned part of a JSON number: digits with an optional fraction
(exponents not modelled); value as a rational. -/
def parseNumCore (l : List Char) : Option (ℚ × List Char) :=
  let ds := l.takeWhile Char.isDigit
  let r := l.drop ds.length
  if ds = [] then none
  else
    match r with
    | '.' :: r2 =>
      let fs := r2.takeWhile Char.isDigit
      let r3 := r2.drop fs.length
      if fs = [] then none
      else some ((digitsToNat ds : ℚ) + (digitsToNat fs : ℚ) / ((10 : ℚ) ^ fs.length), r3)
    | _ => some ((digitsToNat ds : ℚ), r)

/-- JSON number: optional minus, then the unsigned part. -/
def parseNumber (cs : List Char) : Option (PyVal × List Char) :=
  match cs with
  | '-' :: l => (parseNumCore l).map fun p => (PyVal.num (-p.1), p.2)
  | l => (parseNumCore l).map fun p => (PyVal.num p.1, p.2)

mutual

/-- Strict JSON value parser (embedding of `json.loads` on the shapes the
pipeline exercises). Fuel decreases on every recursive call. -/
def parseValue : Nat → List Char → Option (PyVal × List Char)
  | 0, _ => none
  | f + 1, cs =>
    match skipWs cs with
    | [] => none
    | c :: rest =>
      if c = '"' then (parseStringBody rest).map fun p => (PyVal.str (String.mk p.1), p.2)
      else if c = '{' then (parseMembers f rest []).map fun p => (PyVal.dict p.1, p.2)
      else if c = '[' then parseElems f rest
      else if trueLit.isPrefixOf (c :: rest) then some (.bool true, (c :: rest).drop 4)
      else if falseLit.isPrefixOf (c :: rest) then some (.bool false, (c :: rest).drop 5)
      else if nullLit.isPrefixOf (c :: rest) then some (.pynull, (c :: rest).drop 4)
      else parseNumber (c :: rest)

/-- Object members after the opening brace: empty object or a member list. -/
def parseMembers : Nat → List Char → PyDict → Option (PyDict × List Char)
  | 0, _, _ => none
  | f + 1, cs, acc =>
    match skipWs cs with
    | '}' :: rest => some (acc, rest)
    | _ => parseMemberList f cs acc

/-- Non-empty member list; duplicate keys keep the last value in the first
position, as `dict` assignment does in CPython. -/
def parseMemberList : Nat → List Char → PyDict → Option (PyDict × List Char)
  | 0, _, _ => none
  | f + 1, cs, acc =>
    match skipWs cs with
    | '"' :: rest =>
      match parseStringBody rest with
      | some (k, r1) =>
        (match skipWs r1 with
        | ':' :: r2 =>
          match parseValue f r2 with
          | some (v, r3) =>
            (match skipWs r3 with
            | ',' :: r4 => parseMemberList f r4 (dSet (String.mk k) v acc)
            | '}' :: r4 => some (dSet (String.mk k) v acc, r4)
            | _ => none)
          | none => none
        | _ => none)
      | none => none
    | _ => none

/-- Array elements after the opening bracket. -/
def parseElems : Nat → List Char → Option (PyVal × List Char)
  | 0, _ => none
  | f + 1, cs =>
    match skipWs cs with
    | ']' :: rest => some (.list [], rest)
    | _ => parseElemList f cs []

/-- Non-empty array element list. -/
def parseElemList : Nat → List Char → List PyVal → Option (PyVal × List Char)
  | 0, _, _ => none
  | f + 1, cs, acc =>
    match parseValue f cs with
    | some (v, r1) =>
      (match skipWs r1 with
      | ',' :: r2 => parseElemList f r2 (acc ++ [v])
      | ']' :: r2 => some (.list (acc ++ [v]), r2)
      | _ => none)
    | none => none

end

/-- Embedding of `json.loads`: a strict parse of the whole input
(trailing non-whitespace rejected); `none` models a raised decode error. -/
def jsonParse (cs : List Char) : Option PyVal :=
  match parseValue (cs.length + 1) cs with
  | some (v, rest) => if skipWs rest = [] then some v else none
  | none => none

/-- The cleaning pass of `FastDocumentProcessor._parse_json`: reasoning-block
removal, then the combined fence-stripping substitution. -/
def cleanFast (cs : List Char) : List Char :=
  let r1 := dropThinkF cs.length cs
  stripFF r1.length r1

/-- Embedding of `FastDocumentProcessor._parse_json`. A successfully located
span always begins with an opening brace, so a successful strict parse of it is
an object; a non-object parse is therefore unreachable and is folded into the
exception fallback. -/
def pyFastParse (cs : List Char) : PyDict :=
  let cleaned := cleanFast cs
  match searchOne cleaned with
  | some span =>
    match jsonParse span with
    | some (PyVal.dict d) => d
    | _ =>
      [("type", .str "document"), ("confidence", .num (1 / 2)),
       ("raw", .str (String.mk (cleaned.take 200)))]
  | none =>
    [("type", .str "document"), ("confidence", .num (3 / 5)),
     ("main_content", .str (String.mk (cleaned.take 200)))]

/-- The cleaning pass of `SimpleDocumentProcessor._parse_response`: the two
fence substitutions, then reasoning-block removal. -/
def cleanSimple (cs : List Char) : List Char :=
  let r1 := stripJsonFence cs.length cs
  let r2 := stripFence2 r1.length r1
  dropThinkF r2.length r2

/-- Embedding of `SimpleDocumentProcessor._parse_response`; both the no-match
branch and the decode-error branch return the raw-content fallback. -/
def pySimpleParse (cs : List Char) : PyDict :=
  let cleaned := cleanSimple cs
  match searchGreedy cleaned with
  | some span =>
    match jsonParse span with
    | some (PyVal.dict d) => d
    | _ => [("raw_content", .str (String.mk cleaned))]
  | none => [("raw_content", .str (String.mk cleaned))]

/-- Round-half-to-even to an integer, the rounding mode of Python `round`
(modelled over rationals; binary floating-point representation effects are
outside the embedding). -/
def rhe (q : ℚ) : ℤ :=
  let f : ℤ := ⌊q⌋
  let r : ℚ := q - f
  if r < 1 / 2 then f
  else if 1 / 2 < r then f + 1
  else if Even f then f else f + 1

/-- Python `round(x, 2)` over rationals. -/
def round2 (q : ℚ) : ℚ := (rhe (q * 100) : ℚ) / 100

/-- Numeric coercion performed implicitly by Python `sum`: ints, floats and
bools are numbers; anything else raises `TypeError`. -/
def asNum : PyVal → Except PyErr ℚ
  | .num q => .ok q
  | .bool b => .ok (if b then 1 else 0)
  | _ => .error .typeError

/-- `sum` over a list of Python values, surfacing the `TypeError` a non-number
raises. -/
def numList : List PyVal → Except PyErr (List ℚ)
  | [] => .ok []
  | v :: rest => (asNum v).bind fun q => (numList rest).map fun l => q :: l

/-- A Model Gateway reply as the page extractors consume it: the `success`
flag with the `content` string, or a failure with the optional `error` entry
of the reply mapping. -/
inductive GwResult where
  | success (content : String)
  | failure (error : Option String)

/-- Embedding of `FastDocumentProcessor._extract_page_fast` given the gateway
reply for the page: on success, parse the content and then overwrite the
`page` and `success` entries; on failure, build the fixed failure record. -/
def extractPageFast (result : GwResult) (pageNum : Nat) : PyDict :=
  match result with
  | .success content =>
    dSet "success" (.bool true)
      (dSet "page" (.num pageNum) (pyFastParse content.toList))
  | .failure err =>
    [("page", .num pageNum), ("success", .bool false),
     ("error", .str (err.getD "Unknown error")),
     ("type", .str "unknown"), ("confidence", .num 0)]

/-- The type-selection loop of `FastDocumentProcessor._combine_simple`:
first record with truthy `success` and a `type` entry; generic fallback. -/
def docTypeOf : List PyDict → PyVal
  | [] => .str "document"
  | e :: rest =>
    match dGet "type" e with
    | some v => if pyTruthy (dGet "success" e) then v else docTypeOf rest
    | none => docTypeOf rest

/-- The result mapping built at the end of
`FastDocumentProcessor._combine_simple`. -/
def combinedDict (extractions : List PyDict) (totalPages : Nat) (avgConf : ℚ) :
    PyDict :=
  [("document_type", docTypeOf extractions),
   ("total_pages", .num totalPages),
   ("processed_pages", .num extractions.length),
   ("confidence", .num (round2 avgConf)),
   ("extracted_content", .dict [("pages", .list (extractions.map .dict))]),
   ("status", .str "success"),
   ("note", .str (if totalPages > 3 then "Fast mode - first 3 pages only"
                  else "Fast mode"))]

/-- Embedding of `FastDocumentProcessor._combine_simple`. `sum` over the
retained confidences can raise `TypeError` when a successful record carries a
non-numeric `confidence`. -/
def combineSimple (extractions : List PyDict) (totalPages : Nat) :
    Except PyErr PyDict :=
  let confVals := (extractions.filter fun e => pyTruthy (dGet "success" e)).map
    fun e => (dGet "confidence" e).getD (.num (1 / 2))
  (if confVals.isEmpty then .ok ((3 : ℚ) / 5)
   else (numList confVals).map fun confs => confs.sum / confs.length).map
    (combinedDict extractions totalPages)

/-- The page loop of `FastDocumentProcessor.process_document`, numbering
pages from 1. -/
def mapPagesFast : Nat → List GwResult → List PyDict
  | _, [] => []
  | i, r :: rest => extractPageFast r i :: mapPagesFast (i + 1) rest

/-- Embedding of `FastDocumentProcessor.process_document`: bound the pages to
`images[:min(3, len(images))]`, extract each, combine. -/
def processDocumentFast (pages : List GwResult) : Except PyErr PyDict :=
  combineSimple (mapPagesFast 1 (pages.take (min 3 pages.length))) pages.length

/-- One iteration of the loop in `SimpleDocumentProcessor._extract_all_pages`:
on success, parse and stamp `page_number`; on failure, a two-entry record
(`result['error']` raises `KeyError` when the entry is absent). -/
def simplePageRecord (r : GwResult) (i : Nat) : Except PyErr PyDict :=
  match r with
  | .success content => .ok (dSet "page_number" (.num i) (pySimpleParse content.toList))
  | .failure (some e) => .ok [("page_number", .num i), ("error", .str e)]
  | .failure none => .error .keyError

/-- The loop of `SimpleDocumentProcessor._extract_all_pages`. -/
def mapPagesSimple : Nat → List GwResult → Except PyErr (List PyDict)
  | _, [] => .ok []
  | i, r :: rest =>
    (simplePageRecord r i).bind fun rec1 =>
      (mapPagesSimple (i + 1) rest).map fun l => rec1 :: l

/-- Embedding of `SimpleDocumentProcessor._format_single_page`. -/
def formatSinglePage (extraction : PyDict) : PyDict :=
  [("document_type", (dGet "document_type" extraction).getD (.str "unknown")),
   ("total_pages", .num 1),
   ("confidence", (dGet "confidence" extraction).getD (.num (7 / 10))),
   ("extracted_content", .dict extraction),
   ("processing_time", .str "fast"),
   ("status", .str "success")]

/-- The result mapping built at the end of
`SimpleDocumentProcessor._combine_pages`. -/
def combinedPagesDict (extractions : List PyDict) (docType : PyVal)
    (avgConf : ℚ) : PyDict :=
  [("document_type", docType),
   ("total_pages", .num extractions.length),
   ("confidence", .num avgConf),
   ("extracted_content", .dict
     [("document_type", docType),
      ("pages", .list (extractions.map .dict))]),
   ("processing_time", .str "optimized"),
   ("status", .str "success")]

/-- Embedding of `SimpleDocumentProcessor._combine_pages`. `extractions[0]`
raises `IndexError` on an empty list; the mean is taken over records that
possess a `confidence` entry and is not rounded. -/
def combinePages (extractions : List PyDict) : Except PyErr PyDict :=
  match extractions with
  | [] => .error .indexError
  | e0 :: _ =>
    let confVals := (extractions.filter fun e => (dGet "confidence" e).isSome).map
      fun e => (dGet "confidence" e).getD (.num (1 / 2))
    (if confVals.isEmpty then .ok ((7 : ℚ) / 10)
     else (numList confVals).map fun confs => confs.sum / confs.length).map
      (combinedPagesDict extractions ((dGet "document_type" e0).getD (.str "unknown")))

/-- Embedding of `SimpleDocumentProcessor.process_document`: single-page
documents are formatted directly, multi-page documents are combined. -/
def processDocumentSimple (pages : List GwResult) : Except PyErr PyDict :=
  (mapPagesSimple 1 pages).bind fun exts =>
    if pages.length = 1 then
      match exts with
      | e :: _ => .ok (formatSinglePage e)
      | [] => .error .indexError
    else combinePages exts

/-- Outcome of the HTTP exchange inside `Qwen3VLClient.query`, before the
response-shape checks: a raised timeout, a raised `RequestException` (transport
errors and non-2xx statuses), any other raised exception (image-encoding
failures, JSON-decoding failures of the reply body), or a decoded reply body. -/
inductive QueryOutcome where
  | timeout
  | reqExc (msg : String)
  | genericExc (msg : String)
  | okResp (body : PyVal)

/-- The failure mapping returned by every except-branch of
`Qwen3VLClient.query`. -/
def failDict (msg : String) : PyDict :=
  [("success", .bool false), ("content", .str ""), ("error", .str msg)]

/-- Embedding of `Qwen3VLClient.query` from the transport outcome onward.
The deep access `result['choices'][0]['message']['content']` raises on
malformed shapes; those raises are caught by the generic except-branch and
return `str(e)` (modelled by fixed descriptive strings). -/
def pyQuery (modelName : String) (o : QueryOutcome) : PyDict :=
  match o with
  | .timeout => failDict "Request timeout"
  | .reqExc m => failDict m
  | .genericExc m => failDict m
  | .okResp body =>
    match body with
    | .dict d =>
      match dGet "choices" d with
      | some (.list (first :: _)) =>
        (match first with
        | .dict fd =>
          (match dGet "message" fd with
          | some (.dict md) =>
            (match dGet "content" md with
            | some content =>
              [("success", .bool true), ("content", content),
               ("model", (dGet "model" d).getD (.str modelName)),
               ("usage", (dGet "usage" d).getD (.dict [])),
               ("raw_response", body)]
            | none => failDict "KeyError: content")
          | some _ => failDict "TypeError: message is not subscriptable"
          | none => failDict "KeyError: message")
        | _ => failDict "TypeError: choice is not subscriptable")
      | some (.list []) => failDict "Unexpected response format"
      | some (.str s) =>
        -- a string reply body supports len() and indexing; the first
        -- character then fails subscription in the deep access
        if s = "" then failDict "Unexpected response format"
        else failDict "TypeError: choice is not subscriptable"
      | some _ => failDict "TypeError: object has no len"
      | none => failDict "Unexpected response format"
    | .list _ => failDict "Unexpected response format"
    | _ => failDict "TypeError: argument is not iterable"

/-- Recover the `.ok` payload of an `Except`, with a default. -/
def exGetD (e : Except PyErr PyDict) (d : PyDict) : PyDict :=
  match e with
  | .ok a => a
  | .error _ => d

/-- Whether an `Except` is a success. -/
def exIsOk (e : Except PyErr PyDict) : Bool :=
  match e with
  | .ok _ => true
  | .error _ => false

/-- An optional dict entry that Python `sum` would accept (absent, numeric,
or boolean). -/
def numOk : Option PyVal → Bool
  | some (.num _) => true
  | some (.bool _) => true
  | none => true
  | _ => false

/-- The numeric confidence of a record, with the `0.5` default of
`e.get('confidence', 0.5)`. -/
def confQ (e : PyDict) : ℚ :=
  match dGet "confidence" e with
  | some (.num q) => q
  | some (.bool b) => if b then 1 else 0
  | _ => 1 / 2

/-- Confidences retained by the fast combiner: records with truthy `success`. -/
def fastConfs (extractions : List PyDict) : List ℚ :=
  (extractions.filter fun e => pyTruthy (dGet "success" e)).map confQ

/-- Confidences retained by the simple multi-page combiner: records that
possess a `confidence` entry. -/
def simpleConfs (extractions : List PyDict) : List ℚ :=
  (extractions.filter fun e => (dGet "confidence" e).isSome).map confQ

/-- Characters admitted in the rendered JSON class of the round-trip theorem:
alphanumerics and a few punctuation marks, excluding quotes, backslashes,
braces, backticks, angle brackets and all whitespace other than the space. -/
def plainChar (c : Char) : Bool :=
  c.isAlphanum || c = ' ' || c = '_' || c = '-' || c = '.' || c = ':' ||
  c = ',' || c = '#' || c = '$' || c = '/'

/-- Every character of the string is plain. -/
def PlainStr (s : String) : Prop := ∀ c ∈ s.toList, plainChar c = true

/-- A quoted JSON string literal. -/
def quoted (s : String) : List Char := '"' :: s.toList ++ ['"']

/-- One rendered member with a string value. -/
def renderMember (k v : String) : List Char := quoted k ++ ':' :: quoted v

/-- Rendered member list of a flat (string-valued) object, comma-separated. -/
def renderFields : List (String × String) → List Char
  | [] => []
  | [(k, v)] => renderMember k v
  | (k, v) :: rest => renderMember k v ++ ',' :: renderFields rest

/-- A rendered flat object. -/
def renderFlat (l : List (String × String)) : List Char :=
  '{' :: renderFields l ++ ['}']

/-- Values of the round-trip class: a string, or a flat object of strings
(exactly the one level of nesting the fast locator supports). -/
inductive OVal where
  | s : String → OVal
  | o : List (String × String) → OVal

/-- Rendering of a round-trip value. -/
def renderOVal : OVal → List Char
  | .s v => quoted v
  | .o fl => renderFlat fl

/-- One rendered top-level member. -/
def renderOMember (k : String) (v : OVal) : List Char :=
  quoted k ++ ':' :: renderOVal v

/-- Rendered top-level member list, comma-separated. -/
def renderOFields : List (String × OVal) → List Char
  | [] => []
  | [(k, v)] => renderOMember k v
  | (k, v) :: rest => renderOMember k v ++ ',' :: renderOFields rest

/-- The rendered JSON object of a top-level member list. -/
def renderObj (l : List (String × OVal)) : List Char :=
  '{' :: renderOFields l ++ ['}']

/-- The Python value of a flat member list. -/
def flatPy (l : List (String × String)) : PyDict :=
  l.map fun kv => (kv.1, PyVal.str kv.2)

/-- The Python value of a round-trip value. -/
def ovalPy : OVal → PyVal
  | .s v => .str v
  | .o fl => .dict (flatPy fl)

/-- The Python dict of a top-level member list. -/
def objPy (l : List (String × OVal)) : PyDict :=
  l.map fun kv => (kv.1, ovalPy kv.2)

/-- Folding dict assignment over a member list, as the object parser does. -/
def dSetList (acc : PyDict) : PyDict → PyDict
  | [] => acc
  | (k, v) :: rest => dSetList (dSet k v acc) rest

/-- Parser fuel consumed by one rendered value. -/
def costV : OVal → Nat
  | .s _ => 0
  | .o fl => fl.length + 2

/-- Parser fuel consumed by a rendered top-level member list. -/
def needTop : List (String × OVal) → Nat
  | [] => 0
  | (_, v) :: t => costV v + 2 + needTop t

/-- Well-formedness of one round-trip value: plain characters, and distinct
keys inside a nested object. -/
def WFVal : OVal → Prop
  | .s w => ∀ c ∈ w.toList, plainChar c = true
  | .o fl => (fl.map Prod.fst).Nodup ∧
      ∀ kv ∈ fl, (∀ c ∈ kv.1.toList, plainChar c = true) ∧
        (∀ c ∈ kv.2.toList, plainChar c = true)

/-- Well-formedness of the members of a top-level list. -/
def WFMembers (l : List (String × OVal)) : Prop :=
  ∀ kv ∈ l, (∀ c ∈ kv.1.toList, plainChar c = true) ∧ WFVal kv.2

/-- Well-formedness of the round-trip class: plain characters throughout and
distinct keys at each level. -/
def WFObj (l : List (String × OVal)) : Prop :=
  (l.map Prod.fst).Nodup ∧ WFMembers l

/-- Safe reasoning-block content: no marker openers, no backticks. -/
def SafeThink (tc : List Char) : Prop := ∀ c ∈ tc, c ≠ '<' ∧ c ≠ btick

/-- A raw model reply wrapping a body: an optional reasoning block followed by
the body, optionally wrapped in json-tagged Markdown fences. -/
def wrapRaw (think : Option (List Char)) (fence : Bool) (body : List Char) :
    List Char :=
  (match think with
   | some tc => thinkOpen ++ tc ++ thinkClose
   | none => []) ++
  (if fence then fenceJson ++ ['\n'] else []) ++ body ++
  (if fence then '\n' :: fence3 else [])

/-- A model reply that is valid JSON but carries neither a `type` nor a
`confidence` entry. -/
def c2input : List Char := '{' :: "\"amounts\": \"none\"".toList ++ ['}']

/-- A model reply with no JSON object at all. -/
def c3input : List Char := "Sorry, the page was unreadable".toList

/-- A model reply in which a brace span is located but strict parsing fails. -/
def c3badInput : List Char := '{' :: "bad json".toList ++ ['}']

/-- A two-page document whose gateway replies are one success and
one failure. -/
def c4pages : List GwResult :=
  [GwResult.success "page one text", GwResult.failure (some "boom")]

/-- Per-page records whose successful confidences average to 5/6, a value a
two-decimal rounding must change. -/
def c5rec1 : PyDict :=
  [("success", .bool true), ("confidence", .num (9 / 10)),
   ("document_type", .str "invoice"), ("type", .str "invoice")]

def c5rec2 : PyDict := [("success", .bool true), ("confidence", .num (4 / 5))]

def c5rec3 : PyDict := [("success", .bool true), ("confidence", .num (4 / 5))]

def c5recs : List PyDict := [c5rec1, c5rec2, c5rec3]

/-- A failed first page followed by a successful typed second page. -/
def c6rec1 : PyDict := [("page_number", .num 1), ("error", .str "Request timeout")]

def c6rec2 : PyDict :=
  [("page_number", .num 2), ("success", .bool true),
   ("document_type", .str "invoice"), ("confidence", .num (9 / 10))]

def c6recs : List PyDict := [c6rec1, c6rec2]

/-- A well-shaped inference-endpoint reply body. -/
def c7body : PyVal :=
  .dict [("choices", .list [.dict [("message", .dict [("content", .str "reply text")])]]),
         ("model", .str "qwen3vl-4b")]

/-- A document on which every gateway call times out. -/
def c9pages : List GwResult :=
  [GwResult.failure (some "Request timeout"), GwResult.failure (some "Request timeout")]

/-- The round-trip witness object: one level of nesting, plain characters. -/
def c1obj : List (String × OVal) :=
  [("type", .s "invoice"), ("confidence", .s "high"),
   ("key_data", .o [("field", "value"), ("total", "500")])]

/-- The round-trip witness reasoning-block content. -/
def c1think : List Char := " the model reasons here first ".toList

/-- Characters that can occur in a rendered object of the round-trip
class. -/
def goodC (c : Char) : Prop :=
  c = '{' ∨ c = '}' ∨ c = '"' ∨ c = ':' ∨ c = ',' ∨ plainChar c = true

theorem dGet_dSet_self (k : String) (v : PyVal) (d : PyDict) :
    dGet k (dSet k v d) = some v := by
  induction d with
  | nil => simp [dGet, dSet]
  | cons kv rest ih =>
    obtain ⟨k', v'⟩ := kv
    by_cases h : k' = k
    · simp [dGet, dSet, h]
    · simp [dGet, dSet, h, ih]

theorem dGet_dSet_ne (k k' : String) (hne : k' ≠ k) (v : PyVal) (d : PyDict) :
    dGet k (dSet k' v d) = dGet k d := by
  induction d with
  | nil => simp [dGet, dSet, hne]
  | cons kv rest ih =>
    obtain ⟨k2, v2⟩ := kv
    by_cases h : k2 = k'
    · simp [dGet, dSet, h, hne]
    · by_cases h2 : k2 = k
      · simp [dGet, dSet, h, h2, Ne.symm hne]
      · simp [dGet, dSet, h, h2, ih]

theorem exceptMap_ok {α : Type} {f : α → PyDict} {e : Except PyErr α} {d : PyDict}
    (h : e.map f = .ok d) : ∃ a, e = .ok a ∧ d = f a := by
  cases e with
  | ok a => exact ⟨a, rfl, by simpa [Except.map] using h.symm⟩
  | error err => simp [Except.map] at h

theorem exceptBind_ok {α : Type} {f : α → Except PyErr PyDict} {e : Except PyErr α}
    {d : PyDict} (h : e.bind f = .ok d) : ∃ a, e = .ok a ∧ f a = .ok d := by
  cases e with
  | ok a => exact ⟨a, rfl, by simpa [Except.bind] using h⟩
  | error err => simp [Except.bind] at h

theorem mapPagesFast_length (i : Nat) (rs : List GwResult) :
    (mapPagesFast i rs).length = rs.length := by
  induction rs generalizing i with
  | nil => rfl
  | cons r rest ih => simp [mapPagesFast, ih]

/-- C10: on a successful gateway reply the fast page extractor stamps the
given page number and a true success flag after parsing, so any `page` or
`success` entries of the model's own JSON never survive into the record. -/
theorem c10_page_success_overwrite (content : String) (n : Nat) :
    dGet "page" (extractPageFast (.success content) n) = some (.num n) ∧
    dGet "success" (extractPageFast (.success content) n) = some (.bool true) := by
  constructor
  · show dGet "page" (dSet "success" _ (dSet "page" _ _)) = _
    rw [dGet_dSet_ne _ _ (by decide), dGet_dSet_self]
  · exact dGet_dSet_self _ _ _

/-- C4: whenever the bounded fast pipeline returns a document result for a
list of pages, its `processed_pages` entry is `min(P, 3)` and its
`total_pages` entry is the original page count `P`. -/
theorem c4_page_bounds (pages : List GwResult) (d : PyDict)
    (h : processDocumentFast pages = .ok d) :
    dGet "processed_pages" d = some (.num (min pages.length 3)) ∧
    dGet "total_pages" d = some (.num pages.length) := by
  unfold processDocumentFast combineSimple at h
  obtain ⟨avg, -, rfl⟩ := exceptMap_ok h
  constructor
  · have hlen : (mapPagesFast 1 (pages.take (min 3 pages.length))).length
        = min pages.length 3 := by
      rw [mapPagesFast_length]
      simp [List.length_take]
      omega
    simp [combinedDict, dGet, hlen]
  · simp [combinedDict, dGet]

/-- C4 witness: a concrete two-page document processed by the bounded
pipeline reports two processed pages out of two. -/
theorem c4_page_bounds_instance :
    dGet "processed_pages" (exGetD (processDocumentFast c4pages) []) =
      some (.num 2) ∧
    dGet "total_pages" (exGetD (processDocumentFast c4pages) []) =
      some (.num 2) := by
  have h := c4_page_bounds c4pages (exGetD (processDocumentFast c4pages) []) rfl
  simpa using h

/-- C9: whenever either processor returns a document result — including for
inputs on which every page extraction failed — its `status` entry is the
string success; no input yields a document-level failure status. -/
theorem c9_status_always_success :
    (∀ pages d, processDocumentFast pages = .ok d →
      dGet "status" d = some (.str "success")) ∧
    (∀ pages d, processDocumentSimple pages = .ok d →
      dGet "status" d = some (.str "success")) := by
  constructor
  · intro pages d h
    unfold processDocumentFast combineSimple at h
    obtain ⟨avg, -, rfl⟩ := exceptMap_ok h
    simp [combinedDict, dGet]
  · intro pages d h
    unfold processDocumentSimple at h
    obtain ⟨exts, -, h2⟩ := exceptBind_ok h
    by_cases hone : pages.length = 1
    · rw [if_pos hone] at h2
      match exts, h2 with
      | e :: _, h2 =>
        have hd : formatSinglePage e = d := by simpa using h2
        subst hd
        simp [formatSinglePage, dGet]
    · rw [if_neg hone] at h2
      unfold combinePages at h2
      match exts, h2 with
      | e0 :: rest, h2 =>
        obtain ⟨avg, -, rfl⟩ := exceptMap_ok h2
        simp [combinedPagesDict, dGet]

/-- C9 witness: a document whose every gateway call times out still yields a
success status from both processors. -/
theorem c9_status_instance :
    dGet "status" (exGetD (processDocumentFast c9pages) []) =
      some (.str "success") ∧
    dGet "status" (exGetD (processDocumentSimple c9pages) []) =
      some (.str "success") :=
  ⟨c9_status_always_success.1 c9pages _ rfl,
   c9_status_always_success.2 c9pages _ rfl⟩

theorem pyQuery_cases (name : String) (o : QueryOutcome) :
    (∃ m, pyQuery name o = failDict m) ∨
    ∃ d content, pyQuery name o =
      [("success", .bool true), ("content", content),
       ("model", (dGet "model" d).getD (.str name)),
       ("usage", (dGet "usage" d).getD (.dict [])),
       ("raw_response", .dict d)] := by
  cases o with
  | timeout => exact .inl ⟨_, rfl⟩
  | reqExc m => exact .inl ⟨_, rfl⟩
  | genericExc m => exact .inl ⟨_, rfl⟩
  | okResp body =>
    cases body with
    | str s => exact .inl ⟨_, rfl⟩
    | num q => exact .inl ⟨_, rfl⟩
    | bool b => exact .inl ⟨_, rfl⟩
    | pynull => exact .inl ⟨_, rfl⟩
    | list l => exact .inl ⟨_, rfl⟩
    | dict d =>
      rcases hch : dGet "choices" d with - | val
      · exact .inl ⟨_, by simp [pyQuery, hch]; rfl⟩
      · cases val with
        | str s =>
          by_cases hs : s = ""
          · exact .inl ⟨_, by simp [pyQuery, hch, hs]; rfl⟩
          · exact .inl ⟨_, by simp [pyQuery, hch, hs]; rfl⟩
        | num q => exact .inl ⟨_, by simp [pyQuery, hch]; rfl⟩
        | bool b => exact .inl ⟨_, by simp [pyQuery, hch]; rfl⟩
        | pynull => exact .inl ⟨_, by simp [pyQuery, hch]; rfl⟩
        | dict dd => exact .inl ⟨_, by simp [pyQuery, hch]; rfl⟩
        | list l =>
          cases l with
          | nil => exact .inl ⟨_, by simp [pyQuery, hch]; rfl⟩
          | cons first restl =>
            cases first with
            | str s => exact .inl ⟨_, by simp [pyQuery, hch]; rfl⟩
            | num q => exact .inl ⟨_, by simp [pyQuery, hch]; rfl⟩
            | bool b => exact .inl ⟨_, by simp [pyQuery, hch]; rfl⟩
            | pynull => exact .inl ⟨_, by simp [pyQuery, hch]; rfl⟩
            | list l2 => exact .inl ⟨_, by simp [pyQuery, hch]; rfl⟩
            | dict fd =>
              rcases hm : dGet "message" fd with - | mval
              · exact .inl ⟨_, by simp [pyQuery, hch, hm]; rfl⟩
              · cases mval with
                | str s => exact .inl ⟨_, by simp [pyQuery, hch, hm]; rfl⟩
                | num q => exact .inl ⟨_, by simp [pyQuery, hch, hm]; rfl⟩
                | bool b => exact .inl ⟨_, by simp [pyQuery, hch, hm]; rfl⟩
                | pynull => exact .inl ⟨_, by simp [pyQuery, hch, hm]; rfl⟩
                | list l2 => exact .inl ⟨_, by simp [pyQuery, hch, hm]; rfl⟩
                | dict md =>
                  rcases hc : dGet "content" md with - | c
                  · exact .inl ⟨_, by simp [pyQuery, hch, hm, hc]; rfl⟩
                  · exact .inr ⟨d, c, by simp [pyQuery, hch, hm, hc]⟩

/-- C7 counterexample: a transport error and an image-encoding (generic)
error with the same exception text produce identical reply mappings, so the
mapping does not distinguish those failure kinds. -/
theorem c7_failure_kind_collision :
    pyQuery "qwen3vl-4b" (.reqExc "boom") = pyQuery "qwen3vl-4b" (.genericExc "boom") ∧
    dGet "success" (pyQuery "qwen3vl-4b" (.reqExc "boom")) = some (.bool false) :=
  ⟨rfl, rfl⟩

/-- C7 as amended: `query` always returns a mapping carrying a boolean
`success` entry (it never raises); timeouts carry the fixed reason, raised
transport and generic exceptions carry the exception text (one shared shape,
not distinguishable by kind), a well-shaped reply yields success with the
generated content, and a missing or empty choices list yields the fixed
unexpected-format reason. -/
theorem c7_gateway_failure_shape (name : String) :
    (∀ o, ∃ b, dGet "success" (pyQuery name o) = some (.bool b)) ∧
    (dGet "success" (pyQuery name .timeout) = some (.bool false) ∧
     dGet "error" (pyQuery name .timeout) = some (.str "Request timeout")) ∧
    (∀ m, pyQuery name (.reqExc m) = failDict m ∧
      pyQuery name (.genericExc m) = failDict m ∧
      dGet "success" (failDict m) = some (.bool false) ∧
      dGet "error" (failDict m) = some (.str m)) ∧
    (∀ d fd md c rest,
      dGet "choices" d = some (.list (.dict fd :: rest)) →
      dGet "message" fd = some (.dict md) →
      dGet "content" md = some c →
      dGet "success" (pyQuery name (.okResp (.dict d))) = some (.bool true) ∧
      dGet "content" (pyQuery name (.okResp (.dict d))) = some c) ∧
    (∀ d, dGet "choices" d = none ∨ dGet "choices" d = some (.list []) →
      dGet "error" (pyQuery name (.okResp (.dict d))) =
        some (.str "Unexpected response format")) := by
  refine ⟨?_, ⟨rfl, rfl⟩, fun m => ⟨rfl, rfl, rfl, rfl⟩, ?_, ?_⟩
  · intro o
    rcases pyQuery_cases name o with ⟨m, h⟩ | ⟨d, content, h⟩
    · exact ⟨false, by rw [h]; rfl⟩
    · exact ⟨true, by rw [h]; rfl⟩
  · intro d fd md c rest hch hm hc
    constructor
    · simp [pyQuery, hch, hm, hc, dGet]
    · simp [pyQuery, hch, hm, hc, dGet]
  · intro d h
    rcases h with h | h
    · simp [pyQuery, h, failDict, dGet]
    · simp [pyQuery, h, failDict, dGet]

/-- C7 witness: a concrete well-shaped reply body yields a success mapping
with the generated content. -/
theorem c7_gateway_instance :
    dGet "success" (pyQuery "qwen3vl-4b" (.okResp c7body)) = some (.bool true) ∧
    dGet "content" (pyQuery "qwen3vl-4b" (.okResp c7body)) =
      some (.str "reply text") := by
  have h := (c7_gateway_failure_shape "qwen3vl-4b").2.2.2.1
    [("choices", .list [.dict [("message", .dict [("content", .str "reply text")])]]),
     ("model", .str "qwen3vl-4b")]
    [("message", .dict [("content", .str "reply text")])]
    [("content", .str "reply text")]
    (.str "reply text") [] rfl rfl rfl
  exact h

/-- C8 counterexample: the simple extractor's record for a failed gateway
call has only `page_number` and `error` entries — no `page`, no `success`
flag, no `type`, no `confidence`. -/
theorem c8_simple_failure_record :
    mapPagesSimple 1 [GwResult.failure (some "Request timeout")] =
      .ok [[("page_number", .num 1), ("error", .str "Request timeout")]] ∧
    dGet "success" [("page_number", .num 1), ("error", .str "Request timeout")] = none ∧
    dGet "page" [("page_number", .num 1), ("error", .str "Request timeout")] = none ∧
    dGet "type" [("page_number", .num 1), ("error", .str "Request timeout")] = none ∧
    dGet "confidence" [("page_number", .num 1), ("error", .str "Request timeout")] = none :=
  ⟨rfl, rfl, rfl, rfl, rfl⟩

/-- C8 as amended: the fast extractor returns exactly the claimed failure
record (page number, false success, the reason with its absent-entry default,
unknown type, zero confidence); the simple extractor instead returns only a
`page_number` and `error` record, and raises `KeyError` when the gateway
mapping lacks the `error` entry. -/
theorem c8_failure_records :
    (∀ (n : Nat) (err : Option String),
      dGet "page" (extractPageFast (.failure err) n) = some (.num n) ∧
      dGet "success" (extractPageFast (.failure err) n) = some (.bool false) ∧
      dGet "error" (extractPageFast (.failure err) n) =
        some (.str (err.getD "Unknown error")) ∧
      dGet "type" (extractPageFast (.failure err) n) = some (.str "unknown") ∧
      dGet "confidence" (extractPageFast (.failure err) n) = some (.num 0)) ∧
    (∀ (n : Nat) (msg : String),
      simplePageRecord (.failure (some msg)) n =
        .ok [("page_number", .num n), ("error", .str msg)]) ∧
    (∀ n : Nat, simplePageRecord (.failure none) n = .error .keyError) := by
  refine ⟨fun n err => ⟨rfl, ?_, ?_, ?_, ?_⟩, fun n msg => rfl, fun n => rfl⟩
  all_goals simp [extractPageFast, dGet]

theorem docTypeOf_first (pre : List PyDict) (e : PyDict) (post : List PyDict)
    (v : PyVal)
    (hpre : ∀ e' ∈ pre, pyTruthy (dGet "success" e') = false ∨ dGet "type" e' = none)
    (hs : pyTruthy (dGet "success" e) = true) (ht : dGet "type" e = some v) :
    docTypeOf (pre ++ e :: post) = v := by
  induction pre with
  | nil => simp [docTypeOf, ht, hs]
  | cons e' pre' ih =>
    rcases hpre e' (by simp) with h | h
    · cases h2 : dGet "type" e' with
      | none => simpa [docTypeOf, h2] using ih fun x hx => hpre x (by simp [hx])
      | some w => simpa [docTypeOf, h2, h] using ih fun x hx => hpre x (by simp [hx])
    · simpa [docTypeOf, h] using ih fun x hx => hpre x (by simp [hx])

theorem docTypeOf_all_fail (exts : List PyDict)
    (h : ∀ e' ∈ exts, pyTruthy (dGet "success" e') = false ∨ dGet "type" e' = none) :
    docTypeOf exts = .str "document" := by
  induction exts with
  | nil => rfl
  | cons e' rest ih =>
    rcases h e' (by simp) with h2 | h2
    · cases h3 : dGet "type" e' with
      | none => simpa [docTypeOf, h3] using ih fun x hx => h x (by simp [hx])
      | some w => simpa [docTypeOf, h3, h2] using ih fun x hx => h x (by simp [hx])
    · simpa [docTypeOf, h2] using ih fun x hx => h x (by simp [hx])

/-- C6 counterexample: with a failed first page and a successful second page
whose type entry is populated, the simple multi-page combiner reports the
first record's (absent) type as unknown rather than the first successful type. -/
theorem c6_simple_first_page_type :
    pyTruthy (dGet "success" c6rec2) = true ∧
    dGet "document_type" c6rec2 = some (.str "invoice") ∧
    exIsOk (combinePages c6recs) = true ∧
    dGet "document_type" (exGetD (combinePages c6recs) []) = some (.str "unknown") ∧
    ("unknown" : String) ≠ "invoice" :=
  ⟨rfl, rfl, rfl, rfl, by decide⟩

/-- C6 as amended: the fast combiner selects the type of the first record in
page order with a truthy success flag and a `type` entry, with the generic
document fallback when no record qualifies; the simple multi-page combiner
instead always takes the first record's `document_type` entry (default
unknown) regardless of success. -/
theorem c6_type_selection :
    (∀ (pre : List PyDict) (e : PyDict) (post : List PyDict) (v : PyVal)
       (tp : Nat) (d : PyDict),
      (∀ e' ∈ pre, pyTruthy (dGet "success" e') = false ∨ dGet "type" e' = none) →
      pyTruthy (dGet "success" e) = true → dGet "type" e = some v →
      combineSimple (pre ++ e :: post) tp = .ok d →
      dGet "document_type" d = some v) ∧
    (∀ (exts : List PyDict) (tp : Nat) (d : PyDict),
      (∀ e' ∈ exts, pyTruthy (dGet "success" e') = false ∨ dGet "type" e' = none) →
      combineSimple exts tp = .ok d →
      dGet "document_type" d = some (.str "document")) ∧
    (∀ (e0 : PyDict) (rest : List PyDict) (d : PyDict),
      combinePages (e0 :: rest) = .ok d →
      dGet "document_type" d = some ((dGet "document_type" e0).getD (.str "unknown"))) := by
  refine ⟨?_, ?_, ?_⟩
  · intro pre e post v tp d hpre hs ht h
    unfold combineSimple at h
    obtain ⟨avg, -, rfl⟩ := exceptMap_ok h
    simp [combinedDict, dGet, docTypeOf_first pre e post v hpre hs ht]
  · intro exts tp d hall h
    unfold combineSimple at h
    obtain ⟨avg, -, rfl⟩ := exceptMap_ok h
    simp [combinedDict, dGet, docTypeOf_all_fail exts hall]
  · intro e0 rest d h
    unfold combinePages at h
    obtain ⟨avg, -, rfl⟩ := exceptMap_ok h
    simp [combinedPagesDict, dGet]

/-- C6 witness: the fast combiner on a failed first record and a successful
typed second record selects the second record's type; the simple combiner on
the same records takes the first record's default. -/
theorem c6_type_selection_instance :
    dGet "document_type"
      (exGetD (combineSimple ([c6rec1] ++ c5rec1 :: []) 2) []) =
      some (.str "invoice") ∧
    dGet "document_type" (exGetD (combinePages (c6rec1 :: [c6rec2])) []) =
      some (.str "unknown") := by
  constructor
  · exact c6_type_selection.1 [c6rec1] c5rec1 [] (.str "invoice") 2 _
      (by intro e' he'; simp at he'; subst he'; left; rfl) rfl rfl rfl
  · exact c6_type_selection.2.2 c6rec1 [c6rec2] _ rfl


theorem numList_cons_ok {v : PyVal} {q : ℚ} {l : List PyVal} {L : List ℚ}
    (hv : asNum v = .ok q) (hl : numList l = .ok L) :
    numList (v :: l) = .ok (q :: L) := by
  simp only [numList, hv, hl]
  rfl

theorem numList_confVals (exts : List PyDict) (p : PyDict → Bool)
    (h : ∀ e ∈ exts, p e = true → numOk (dGet "confidence" e) = true) :
    numList ((exts.filter p).map fun e => (dGet "confidence" e).getD (.num (1 / 2))) =
      .ok ((exts.filter p).map confQ) := by
  induction exts with
  | nil => rfl
  | cons e rest ih =>
    have hrest := ih fun x hx hp => h x (by simp [hx]) hp
    by_cases hp : p e
    · have hok := h e (by simp) hp
      have hhead : asNum ((dGet "confidence" e).getD (.num (1 / 2))) = .ok (confQ e) := by
        cases hcv : dGet "confidence" e with
        | none => simp [asNum, confQ, hcv]
        | some val =>
          cases val with
          | num q => simp [asNum, confQ, hcv]
          | bool b => simp [asNum, confQ, hcv]
          | str s => rw [hcv] at hok; exact absurd hok (by simp [numOk])
          | pynull => rw [hcv] at hok; exact absurd hok (by simp [numOk])
          | list l => rw [hcv] at hok; exact absurd hok (by simp [numOk])
          | dict dd => rw [hcv] at hok; exact absurd hok (by simp [numOk])
      rw [List.filter_cons_of_pos hp, List.map_cons, List.map_cons]
      exact numList_cons_ok hhead hrest
    · rw [List.filter_cons_of_neg (by simpa using hp)]
      exact hrest

/-- C5 counterexample: three successful records with confidences 0.9, 0.8,
0.8 make the simple multi-page combiner report the exact mean 5/6, while the
two-decimal rounding the claim requires would give 0.83. -/
theorem c5_simple_mean_unrounded :
    (∀ e ∈ c5recs, pyTruthy (dGet "success" e) = true) ∧
    dGet "confidence" (exGetD (combinePages c5recs) []) = some (.num (5 / 6)) ∧
    round2 (5 / 6) = 83 / 100 ∧ (5 / 6 : ℚ) ≠ 83 / 100 := by
  refine ⟨by decide, ?_, ?_, by norm_num⟩
  · have h : combinePages c5recs =
        .ok (combinedPagesDict c5recs (.str "invoice")
          (([9 / 10, 4 / 5, 4 / 5] : List ℚ).sum /
            ([9 / 10, 4 / 5, 4 / 5] : List ℚ).length)) := by
      rfl
    rw [h]
    show dGet "confidence" (combinedPagesDict _ _ _) = _
    simp [combinedPagesDict, dGet]
    norm_num
  · have h1 : ((5 : ℚ) / 6 * 100) = 250 / 3 := by norm_num
    have h2 : rhe (250 / 3) = 83 := by
      have hf : (⌊(250 / 3 : ℚ)⌋ : ℤ) = 83 := by norm_num [Int.floor_eq_iff]
      unfold rhe
      rw [hf]
      norm_num
    unfold round2
    rw [h1, h2]
    norm_num

/-- C5 as amended: the fast combiner reports the two-decimal rounding of the
mean confidence over truthy-success records (absent entries defaulting to
0.5), with 0.6 when no record qualifies; the simple multi-page combiner
reports the unrounded mean over records possessing a `confidence` entry, with
0.7 when none does. -/
theorem c5_confidence_aggregation :
    (∀ (exts : List PyDict) (tp : Nat),
      (∀ e ∈ exts, pyTruthy (dGet "success" e) = true →
        numOk (dGet "confidence" e) = true) →
      ∃ d, combineSimple exts tp = .ok d ∧
        dGet "confidence" d = some (.num (round2
          (if fastConfs exts = [] then 3 / 5
           else (fastConfs exts).sum / (fastConfs exts).length)))) ∧
    (∀ exts : List PyDict, exts ≠ [] →
      (∀ e ∈ exts, numOk (dGet "confidence" e) = true) →
      ∃ d, combinePages exts = .ok d ∧
        dGet "confidence" d = some (.num
          (if simpleConfs exts = [] then 7 / 10
           else (simpleConfs exts).sum / (simpleConfs exts).length))) := by
  constructor
  · intro exts tp hnum
    have hlist := numList_confVals exts _ hnum
    unfold combineSimple
    cases hf : exts.filter fun e => pyTruthy (dGet "success" e) with
    | nil =>
      rw [hf] at hlist
      simp only [hf, List.map_nil, List.isEmpty_nil, if_true, Except.map]
      exact ⟨_, rfl, by simp [combinedDict, dGet, fastConfs, hf]⟩
    | cons k ks =>
      rw [hf] at hlist
      simp only [hf, List.isEmpty_cons, Bool.false_eq_true, if_false, hlist,
        Except.map]
      exact ⟨_, rfl, by simp [combinedDict, dGet, fastConfs, hf]⟩
  · intro exts hne hnum
    have hnum' : ∀ e ∈ exts, ((dGet "confidence" e).isSome) = true →
        numOk (dGet "confidence" e) = true := fun e he _ => hnum e he
    have hlist := numList_confVals exts _ hnum'
    match exts, hne with
    | e0 :: rest, _ =>
      unfold combinePages
      cases hf : (e0 :: rest).filter fun e => (dGet "confidence" e).isSome with
      | nil =>
        rw [hf] at hlist
        simp only [hf, List.map_nil, List.isEmpty_nil, if_true, Except.map]
        exact ⟨_, rfl, by simp [combinedPagesDict, dGet, simpleConfs, hf]⟩
      | cons k ks =>
        rw [hf] at hlist
        simp only [hf, List.isEmpty_cons, Bool.false_eq_true, if_false, hlist,
          Except.map]
        exact ⟨_, rfl, by simp [combinedPagesDict, dGet, simpleConfs, hf]⟩

/-- C5 witness: the amended aggregation applied to three concrete records,
for both combiners. -/
theorem c5_confidence_instance :
    (∃ d, combineSimple c5recs 3 = .ok d ∧
      dGet "confidence" d = some (.num (round2
        (if fastConfs c5recs = [] then 3 / 5
         else (fastConfs c5recs).sum / (fastConfs c5recs).length)))) ∧
    (∃ d, combinePages c5recs = .ok d ∧
      dGet "confidence" d = some (.num
        (if simpleConfs c5recs = [] then 7 / 10
         else (simpleConfs c5recs).sum / (simpleConfs c5recs).length))) :=
  ⟨c5_confidence_aggregation.1 c5recs 3 (by decide),
   c5_confidence_aggregation.2 c5recs (by simp [c5recs]) (by decide)⟩

/-- C2 counterexample: a model reply that is a valid JSON object without
`type` or `confidence` entries is returned as-is by the fast normalizer, so
the result mapping carries neither key. -/
theorem c2_parse_missing_keys :
    pyFastParse c2input = [("amounts", .str "none")] ∧
    dGet "type" (pyFastParse c2input) = none ∧
    dGet "confidence" (pyFastParse c2input) = none :=
  ⟨rfl, rfl, rfl⟩

/-- C2 as amended: both normalizers always return a mapping and never raise;
but the mapping is guaranteed to carry `type` and `confidence` entries only
on the fast normalizer's no-JSON branches (with the generic label and a fixed
0.5 or 0.6) — a successfully parsed object is returned as-is with whatever
keys the model emitted, and the simple normalizer's fallback carries only
`raw_content`. -/
theorem c2_parse_total_shape :
    (∀ cs : List Char,
      (∃ span d, searchOne (cleanFast cs) = some span ∧
        jsonParse span = some (.dict d) ∧ pyFastParse cs = d) ∨
      (dGet "type" (pyFastParse cs) = some (.str "document") ∧
       (dGet "confidence" (pyFastParse cs) = some (.num (1 / 2)) ∨
        dGet "confidence" (pyFastParse cs) = some (.num (3 / 5))))) ∧
    (∀ cs : List Char,
      (∃ span d, searchGreedy (cleanSimple cs) = some span ∧
        jsonParse span = some (.dict d) ∧ pySimpleParse cs = d) ∨
      pySimpleParse cs = [("raw_content", .str (String.mk (cleanSimple cs)))]) := by
  constructor
  · intro cs
    cases hs : searchOne (cleanFast cs) with
    | none =>
      right
      exact ⟨by simp only [pyFastParse, hs]; rfl,
             .inr (by simp only [pyFastParse, hs]; rfl)⟩
    | some span =>
      cases hj : jsonParse span with
      | none =>
        right
        exact ⟨by simp only [pyFastParse, hs, hj]; rfl,
               .inl (by simp only [pyFastParse, hs, hj]; rfl)⟩
      | some v =>
        cases v with
        | dict d =>
          refine .inl ⟨span, d, rfl, hj, ?_⟩
          simp only [pyFastParse, hs, hj]
        | str s =>
          exact .inr ⟨by simp only [pyFastParse, hs, hj]; rfl,
                      .inl (by simp only [pyFastParse, hs, hj]; rfl)⟩
        | num q =>
          exact .inr ⟨by simp only [pyFastParse, hs, hj]; rfl,
                      .inl (by simp only [pyFastParse, hs, hj]; rfl)⟩
        | bool b =>
          exact .inr ⟨by simp only [pyFastParse, hs, hj]; rfl,
                      .inl (by simp only [pyFastParse, hs, hj]; rfl)⟩
        | pynull =>
          exact .inr ⟨by simp only [pyFastParse, hs, hj]; rfl,
                      .inl (by simp only [pyFastParse, hs, hj]; rfl)⟩
        | list l =>
          exact .inr ⟨by simp only [pyFastParse, hs, hj]; rfl,
                      .inl (by simp only [pyFastParse, hs, hj]; rfl)⟩
  · intro cs
    cases hs : searchGreedy (cleanSimple cs) with
    | none => exact .inr (by simp only [pySimpleParse, hs])
    | some span =>
      cases hj : jsonParse span with
      | none => exact .inr (by simp only [pySimpleParse, hs, hj])
      | some v =>
        cases v with
        | dict d =>
          refine .inl ⟨span, d, rfl, hj, ?_⟩
          simp only [pySimpleParse, hs, hj]
        | str s => exact .inr (by simp only [pySimpleParse, hs, hj])
        | num q => exact .inr (by simp only [pySimpleParse, hs, hj])
        | bool b => exact .inr (by simp only [pySimpleParse, hs, hj])
        | pynull => exact .inr (by simp only [pySimpleParse, hs, hj])
        | list l => exact .inr (by simp only [pySimpleParse, hs, hj])

/-- C3 counterexample: on unparseable text the simple normalizer returns only
a `raw_content` mapping — no generic `type` label, no fixed `confidence`, and
the full (untruncated) text. -/
theorem c3_simple_fallback_shape :
    pySimpleParse c3input = [("raw_content", .str "Sorry, the page was unreadable")] ∧
    dGet "type" (pySimpleParse c3input) = none ∧
    dGet "confidence" (pySimpleParse c3input) = none :=
  ⟨rfl, rfl, rfl⟩

/-- C3 as amended: when no JSON is recovered, the fast normalizer returns a
degraded mapping with the generic document label, a fixed confidence (0.6
when no span is located, 0.5 when strict parsing fails) and the first 200
characters of the CLEANED (think/fence-stripped) text, not of the raw input;
the simple normalizer instead returns only the untruncated cleaned text under
`raw_content`, with no type or confidence entries. -/
theorem c3_degraded_record :
    (∀ cs : List Char, searchOne (cleanFast cs) = none →
      pyFastParse cs =
        [("type", .str "document"), ("confidence", .num (3 / 5)),
         ("main_content", .str (String.mk ((cleanFast cs).take 200)))] ∧
      ((cleanFast cs).take 200).length ≤ 200) ∧
    (∀ (cs span : List Char), searchOne (cleanFast cs) = some span →
      jsonParse span = none →
      pyFastParse cs =
        [("type", .str "document"), ("confidence", .num (1 / 2)),
         ("raw", .str (String.mk ((cleanFast cs).take 200)))]) ∧
    (∀ cs : List Char, searchGreedy (cleanSimple cs) = none →
      pySimpleParse cs = [("raw_content", .str (String.mk (cleanSimple cs)))]) := by
  refine ⟨fun cs hs => ⟨?_, List.length_take_le _ _⟩, fun cs span hs hj => ?_,
    fun cs hs => ?_⟩
  · simp only [pyFastParse, hs]
  · simp only [pyFastParse, hs, hj]
  · simp only [pySimpleParse, hs]

/-- C3 witness: the degraded-record shapes at concrete inputs — text with no
JSON for both normalizers, and a located but unparseable span for the fast
normalizer's decode-error branch. -/
theorem c3_degraded_record_instance :
    (pyFastParse c3input =
      [("type", .str "document"), ("confidence", .num (3 / 5)),
       ("main_content", .str (String.mk ((cleanFast c3input).take 200)))] ∧
     ((cleanFast c3input).take 200).length ≤ 200) ∧
    pyFastParse c3badInput =
      [("type", .str "document"), ("confidence", .num (1 / 2)),
       ("raw", .str (String.mk ((cleanFast c3badInput).take 200)))] ∧
    pySimpleParse c3input = [("raw_content", .str (String.mk (cleanSimple c3input)))] :=
  ⟨c3_degraded_record.1 c3input rfl,
   c3_degraded_record.2.1 c3badInput c3badInput rfl rfl,
   c3_degraded_record.2.2 c3input rfl⟩

theorem plain_ne_quote {c : Char} (h : plainChar c = true) : c ≠ '"' := by
  intro hc; subst hc; exact absurd h (by decide)

theorem plain_ne_backslash {c : Char} (h : plainChar c = true) : c ≠ '\\' := by
  intro hc; subst hc; exact absurd h (by decide)

theorem parseStringBody_cons (c : Char) (rest : List Char)
    (h1 : c ≠ '"') (h2 : c ≠ '\\') :
    parseStringBody (c :: rest) =
      (parseStringBody rest).map fun p => (c :: p.1, p.2) := by
  unfold parseStringBody
  rw [if_neg h1, if_neg h2]
  exact congrArg _ (parseStringBody.eq_def rest)

theorem parseStringBody_plain (l rest : List Char)
    (h : ∀ c ∈ l, plainChar c = true) :
    parseStringBody (l ++ '"' :: rest) = some (l, rest) := by
  induction l with
  | nil =>
    simp only [List.nil_append]
    unfold parseStringBody
    simp
  | cons c l' ih =>
    have hc := h c (by simp)
    rw [List.cons_append,
      parseStringBody_cons c _ (plain_ne_quote hc) (plain_ne_backslash hc),
      ih fun x hx => h x (by simp [hx])]
    rfl

theorem skipWs_cons (c : Char) (l : List Char) (h : pySpace c = false) :
    skipWs (c :: l) = c :: l := by
  simp [skipWs, List.dropWhile_cons, h]

theorem string_mk_toList (s : String) : String.mk s.toList = s := rfl

theorem parseValue_str (f : Nat) (l rest : List Char)
    (h : ∀ c ∈ l, plainChar c = true) :
    parseValue (f + 1) ('"' :: l ++ '"' :: rest) =
      some (.str (String.mk l), rest) := by
  show parseValue (f + 1) ('"' :: (l ++ '"' :: rest)) = _
  unfold parseValue
  rw [skipWs_cons '"' _ (by decide)]
  simp [parseStringBody_plain l rest h]

theorem pml_step (f : Nat) (k : String) (val tail : List Char) (pv : PyVal)
    (acc : PyDict) (hk : ∀ c ∈ k.toList, plainChar c = true)
    (hv : parseValue f (val ++ tail) = some (pv, tail)) :
    parseMemberList (f + 1) ((quoted k ++ ':' :: val) ++ tail) acc =
      (match skipWs tail with
       | ',' :: r4 => parseMemberList f r4 (dSet k pv acc)
       | '}' :: r4 => some (dSet k pv acc, r4)
       | _ => none) := by
  have hshape : (quoted k ++ ':' :: val) ++ tail =
      '"' :: (k.toList ++ '"' :: (':' :: (val ++ tail))) := by
    simp [quoted]
  rw [hshape]
  conv_lhs => rw [parseMemberList.eq_def]
  simp only [skipWs_cons '"' (k.toList ++ '"' :: (':' :: (val ++ tail))) (by decide),
    parseStringBody_plain k.toList (':' :: (val ++ tail)) hk,
    skipWs_cons ':' (val ++ tail) (by decide), hv, string_mk_toList]

theorem pml_flat (fl : List (String × String)) :
    ∀ (f : Nat) (acc : PyDict) (rest : List Char), fl ≠ [] →
    (∀ kv ∈ fl, (∀ c ∈ kv.1.toList, plainChar c = true) ∧
      (∀ c ∈ kv.2.toList, plainChar c = true)) →
    fl.length ≤ f →
    parseMemberList (f + 1) (renderFields fl ++ '}' :: rest) acc =
      some (dSetList acc (flatPy fl), rest) := by
  induction fl with
  | nil => intro f acc rest hne; exact absurd rfl hne
  | cons kv t ih =>
    obtain ⟨k, v⟩ := kv
    intro f acc rest hne hwf hlen
    obtain ⟨f1, rfl⟩ : ∃ f1, f = f1 + 1 := by
      cases f with
      | zero => simp at hlen
      | succ f1 => exact ⟨f1, rfl⟩
    have hkv := hwf (k, v) (by simp)
    cases t with
    | nil =>
      have hshape : renderFields [(k, v)] ++ '}' :: rest =
          (quoted k ++ ':' :: quoted v) ++ '}' :: rest := by
        simp [renderFields, renderMember]
      rw [hshape,
        pml_step (f1 + 1) k (quoted v) ('}' :: rest) (.str v) acc hkv.1
          (by
            show parseValue (f1 + 1) ('"' :: (v.toList ++ ['"']) ++ '}' :: rest) = _
            rw [show ('"' :: (v.toList ++ ['"'])) ++ '}' :: rest =
              '"' :: v.toList ++ '"' :: ('}' :: rest) by simp]
            rw [parseValue_str f1 v.toList ('}' :: rest) hkv.2, string_mk_toList])]
      rw [skipWs_cons '}' rest (by decide)]
      rfl
    | cons kv2 t2 =>
      have hshape : renderFields ((k, v) :: kv2 :: t2) ++ '}' :: rest =
          (quoted k ++ ':' :: quoted v) ++
            (',' :: (renderFields (kv2 :: t2) ++ '}' :: rest)) := by
      -- renderFields of a two-or-more list unfolds to member ++ ',' :: renderFields tail
        simp [renderFields, renderMember]
      rw [hshape,
        pml_step (f1 + 1) k (quoted v)
          (',' :: (renderFields (kv2 :: t2) ++ '}' :: rest)) (.str v) acc hkv.1
          (by
            rw [show (quoted v) ++ (',' :: (renderFields (kv2 :: t2) ++ '}' :: rest)) =
              '"' :: v.toList ++ '"' :: (',' :: (renderFields (kv2 :: t2) ++ '}' :: rest)) by
                simp [quoted]]
            rw [parseValue_str f1 v.toList _ hkv.2, string_mk_toList])]
      rw [skipWs_cons ',' _ (by decide)]
      show parseMemberList (f1 + 1) (renderFields (kv2 :: t2) ++ '}' :: rest)
          (dSet k (.str v) acc) = _
      rw [ih (f1) (dSet k (.str v) acc) rest (by simp)
        (fun x hx => hwf x (by simp [hx])) (by simp at hlen ⊢; omega)]
      rfl

theorem dSet_append (k : String) (v : PyVal) (acc : PyDict)
    (h : ∀ kv ∈ acc, kv.1 ≠ k) : dSet k v acc = acc ++ [(k, v)] := by
  induction acc with
  | nil => rfl
  | cons kv2 t ih =>
    obtain ⟨k2, v2⟩ := kv2
    have : k2 ≠ k := h (k2, v2) (by simp)
    simp only [dSet, if_neg this, List.cons_append]
    rw [ih fun x hx => h x (by simp [hx])]

theorem dSetList_append (l : PyDict) : ∀ acc : PyDict,
    (l.map Prod.fst).Nodup →
    (∀ kv ∈ acc, ∀ kv2 ∈ l, kv.1 ≠ kv2.1) →
    dSetList acc l = acc ++ l := by
  induction l with
  | nil => intro acc _ _; simp [dSetList]
  | cons kv t ih =>
    obtain ⟨k, v⟩ := kv
    intro acc hnd hdisj
    show dSetList (dSet k v acc) t = _
    rw [dSet_append k v acc fun x hx => hdisj x hx (k, v) (by simp)]
    rw [ih (acc ++ [(k, v)]) (by simp at hnd; exact hnd.2) ?_]
    · simp
    · intro kv2 hkv2 kv3 hkv3
      rcases List.mem_append.mp hkv2 with h2 | h2
      · exact hdisj kv2 h2 kv3 (by simp [hkv3])
      · simp at h2
        subst h2
        simp only [List.map_cons, List.nodup_cons] at hnd
        intro hcontra
        refine hnd.1 ?_
        rw [show k = kv3.1 from hcontra]
        exact List.mem_map_of_mem Prod.fst hkv3

theorem dSetList_nil (l : PyDict) (hnd : (l.map Prod.fst).Nodup) :
    dSetList [] l = l := by
  simpa using dSetList_append l [] hnd (by simp)

theorem flatPy_keys (fl : List (String × String)) :
    (flatPy fl).map Prod.fst = fl.map Prod.fst := by
  simp [flatPy]

theorem objPy_keys (l : List (String × OVal)) :
    (objPy l).map Prod.fst = l.map Prod.fst := by
  simp [objPy]



theorem parseMembers_quote (f : Nat) (X : List Char) (acc : PyDict) :
    parseMembers (f + 1) ('"' :: X) acc = parseMemberList f ('"' :: X) acc := rfl

theorem parseMembers_close (f : Nat) (rest : List Char) (acc : PyDict) :
    parseMembers (f + 1) ('}' :: rest) acc = some (acc, rest) := rfl

theorem parseValue_lbrace (f : Nat) (X : List Char) :
    parseValue (f + 1) ('{' :: X) =
      (parseMembers f X []).map fun p => (PyVal.dict p.1, p.2) := rfl


theorem renderFieldsHead (k v : String) (t : List (String × String))
    (rest : List Char) :
    ∃ X, renderFields ((k, v) :: t) ++ '}' :: rest = '"' :: X := by
  cases t with
  | nil => exact ⟨_, by simp [renderFields, renderMember, quoted]; rfl⟩
  | cons kv2 t2 => exact ⟨_, by simp [renderFields, renderMember, quoted]; rfl⟩

theorem parseValue_oval (v : OVal) (f : Nat) (rest : List Char)
    (hwf : WFVal v) (hf : costV v ≤ f) :
    parseValue (f + 1) (renderOVal v ++ rest) = some (ovalPy v, rest) := by
  cases v with
  | s w =>
    show parseValue (f + 1) (quoted w ++ rest) = _
    rw [show quoted w ++ rest = '"' :: w.toList ++ '"' :: rest by simp [quoted]]
    exact parseValue_str f w.toList rest hwf
  | o fl =>
    obtain ⟨f1, rfl⟩ : ∃ f1, f = f1 + 1 := by
      cases f with
      | zero => simp [costV] at hf
      | succ f1 => exact ⟨f1, rfl⟩
    show parseValue (f1 + 1 + 1) (renderFlat fl ++ rest) = _
    rw [show renderFlat fl ++ rest = '{' :: (renderFields fl ++ '}' :: rest) by
      simp [renderFlat], parseValue_lbrace]
    cases fl with
    | nil =>
      show (parseMembers (f1 + 1) ('}' :: rest) []).map _ = _
      rw [parseMembers_close]
      rfl
    | cons kv t =>
      obtain ⟨k, w⟩ := kv
      obtain ⟨f2, rfl⟩ : ∃ f2, f1 = f2 + 1 := by
        cases f1 with
        | zero => simp [costV] at hf
        | succ f2 => exact ⟨f2, rfl⟩
      obtain ⟨X, hX⟩ := renderFieldsHead k w t rest
      rw [hX, parseMembers_quote, ← hX]
      rw [pml_flat ((k, w) :: t) f2 [] rest (by simp) hwf.2
        (by simp [costV] at hf; simpa using hf)]
      rw [dSetList_nil _ (by rw [flatPy_keys]; exact hwf.1)]
      rfl




theorem pml_top (l : List (String × OVal)) :
    ∀ (f : Nat) (acc : PyDict) (rest : List Char), l ≠ [] →
    WFMembers l → needTop l ≤ f →
    parseMemberList (f + 1) (renderOFields l ++ '}' :: rest) acc =
      some (dSetList acc (objPy l), rest) := by
  induction l with
  | nil => intro f acc rest hne; exact absurd rfl hne
  | cons kv t ih =>
    obtain ⟨k, v⟩ := kv
    intro f acc rest hne hwf hlen
    obtain ⟨fv, rfl⟩ : ∃ fv, f = fv + 1 := by
      cases f with
      | zero => exfalso; simp [needTop] at hlen
      | succ fv => exact ⟨fv, rfl⟩
    have hkv := hwf (k, v) (by simp)
    have hfv : costV v ≤ fv := by simp [needTop] at hlen; omega
    cases t with
    | nil =>
      have hshape : renderOFields [(k, v)] ++ '}' :: rest =
          (quoted k ++ ':' :: renderOVal v) ++ '}' :: rest := by
        simp [renderOFields, renderOMember]
      rw [hshape, pml_step (fv + 1) k (renderOVal v) ('}' :: rest) (ovalPy v) acc
        hkv.1 (parseValue_oval v fv ('}' :: rest) hkv.2 hfv)]
      rw [skipWs_cons '}' rest (by decide)]
      rfl
    | cons kv2 t2 =>
      have hshape : renderOFields ((k, v) :: kv2 :: t2) ++ '}' :: rest =
          (quoted k ++ ':' :: renderOVal v) ++
            (',' :: (renderOFields (kv2 :: t2) ++ '}' :: rest)) := by
        simp [renderOFields, renderOMember]
      rw [hshape, pml_step (fv + 1) k (renderOVal v)
        (',' :: (renderOFields (kv2 :: t2) ++ '}' :: rest)) (ovalPy v) acc
        hkv.1 (parseValue_oval v fv _ hkv.2 hfv)]
      rw [skipWs_cons ',' _ (by decide)]
      show parseMemberList (fv + 1) (renderOFields (kv2 :: t2) ++ '}' :: rest)
          (dSet k (ovalPy v) acc) = _
      obtain ⟨fw, rfl⟩ : ∃ fw, fv = fw + 1 := by
        cases fv with
        | zero => exfalso; simp [needTop] at hlen; omega
        | succ fw => exact ⟨fw, rfl⟩
      rw [ih (fw + 1) (dSet k (ovalPy v) acc) rest (by simp)
        (fun x hx => hwf x (by simp [hx])) (by simp [needTop] at hlen ⊢; omega)]
      rfl

theorem renderOFieldsHead (k : String) (v : OVal) (t : List (String × OVal))
    (rest : List Char) :
    ∃ X, renderOFields ((k, v) :: t) ++ '}' :: rest = '"' :: X := by
  cases t with
  | nil => exact ⟨_, by simp [renderOFields, renderOMember, quoted]; rfl⟩
  | cons kv2 t2 => exact ⟨_, by simp [renderOFields, renderOMember, quoted]; rfl⟩

theorem parseValue_obj (l : List (String × OVal)) (f : Nat) (rest : List Char)
    (hnd : (l.map Prod.fst).Nodup) (hwf : WFMembers l)
    (hf : needTop l + 2 ≤ f) :
    parseValue (f + 1) (renderObj l ++ rest) = some (.dict (objPy l), rest) := by
  obtain ⟨f1, rfl⟩ : ∃ f1, f = f1 + 1 := by
    cases f with
    | zero => omega
    | succ f1 => exact ⟨f1, rfl⟩
  rw [show renderObj l ++ rest = '{' :: (renderOFields l ++ '}' :: rest) by
    simp [renderObj], parseValue_lbrace]
  cases l with
  | nil =>
    show (parseMembers (f1 + 1) ('}' :: rest) []).map _ = _
    rw [parseMembers_close]
    rfl
  | cons kv t =>
    obtain ⟨k, v⟩ := kv
    obtain ⟨f2, rfl⟩ : ∃ f2, f1 = f2 + 1 := by
      cases f1 with
      | zero => omega
      | succ f2 => exact ⟨f2, rfl⟩
    obtain ⟨X, hX⟩ := renderOFieldsHead k v t rest
    rw [hX, parseMembers_quote, ← hX]
    rw [pml_top ((k, v) :: t) f2 [] rest (by simp) hwf (by omega)]
    rw [dSetList_nil _ (by rw [objPy_keys]; exact hnd)]
    rfl

theorem quoted_length (s : String) : (quoted s).length = s.toList.length + 2 := by
  simp [quoted]

theorem renderFields_len (fl : List (String × String)) :
    fl.length ≤ (renderFields fl).length + 1 := by
  induction fl with
  | nil => simp [renderFields]
  | cons kv t ih =>
    cases t with
    | nil => simp [renderFields]
    | cons kv2 t2 =>
      obtain ⟨k, v⟩ := kv
      simp only [renderFields, List.length_append, List.length_cons]
      simp at ih ⊢
      omega

theorem renderOMember_bound (k : String) (v : OVal) :
    costV v + 2 ≤ (renderOMember k v).length := by
  cases v with
  | s w =>
    simp [renderOMember, renderOVal, costV, quoted_length, quoted]
    omega
  | o fl =>
    have h := renderFields_len fl
    simp [renderOMember, renderOVal, costV, quoted_length, renderFlat]
    omega

theorem needTop_le (l : List (String × OVal)) :
    needTop l ≤ (renderOFields l).length := by
  induction l with
  | nil => simp [needTop, renderOFields]
  | cons kv t ih =>
    obtain ⟨k, v⟩ := kv
    have hm := renderOMember_bound k v
    cases t with
    | nil => simp [needTop, renderOFields]; omega
    | cons kv2 t2 =>
      have hstep : needTop ((k, v) :: kv2 :: t2) =
          costV v + 2 + needTop (kv2 :: t2) := rfl
      have hlen2 : (renderOFields ((k, v) :: kv2 :: t2)).length =
          (renderOMember k v).length + 1 + (renderOFields (kv2 :: t2)).length := by
        simp [renderOFields]
        omega
      omega

theorem jsonParse_render (l : List (String × OVal))
    (hnd : (l.map Prod.fst).Nodup) (hwf : WFMembers l) :
    jsonParse (renderObj l) = some (.dict (objPy l)) := by
  unfold jsonParse
  have hlen : needTop l + 2 ≤ (renderObj l).length := by
    have := needTop_le l
    simp [renderObj]
    omega
  have h := parseValue_obj l (renderObj l).length [] hnd hwf hlen
  rw [List.append_nil] at h
  rw [h]
  rfl

theorem plain_ne_lbrace {c : Char} (h : plainChar c = true) : c ≠ '{' := by
  intro hc; subst hc; exact absurd h (by decide)

theorem plain_ne_rbrace {c : Char} (h : plainChar c = true) : c ≠ '}' := by
  intro hc; subst hc; exact absurd h (by decide)

theorem scanLvl1_cons (c : Char) (rest : List Char) (h1 : c ≠ '{') (h2 : c ≠ '}') :
    scanLvl 1 (c :: rest) = (scanLvl 1 rest).map (c :: ·) := by
  show (if c = '}' then some [c]
    else if c = '{' then (scanLvl 2 rest).map (c :: ·)
    else (scanLvl 1 rest).map (c :: ·)) = _
  rw [if_neg h2, if_neg h1]

theorem scanLvl2_cons (c : Char) (rest : List Char) (h1 : c ≠ '{') (h2 : c ≠ '}') :
    scanLvl 2 (c :: rest) = (scanLvl 2 rest).map (c :: ·) := by
  show (if c = '}' then (scanLvl 1 rest).map (c :: ·)
    else if c = '{' then none
    else (scanLvl 2 rest).map (c :: ·)) = _
  rw [if_neg h2, if_neg h1]

theorem scanLvl1_nb (a : List Char) (x : List Char)
    (h : ∀ c ∈ a, c ≠ '{' ∧ c ≠ '}') :
    scanLvl 1 (a ++ x) = (scanLvl 1 x).map (a ++ ·) := by
  induction a with
  | nil => simp
  | cons c a' ih =>
    have hc := h c (by simp)
    rw [List.cons_append, scanLvl1_cons c _ hc.1 hc.2,
      ih fun y hy => h y (by simp [hy]), Option.map_map]
    rfl

theorem scanLvl2_nb (a : List Char) (x : List Char)
    (h : ∀ c ∈ a, c ≠ '{' ∧ c ≠ '}') :
    scanLvl 2 (a ++ x) = (scanLvl 2 x).map (a ++ ·) := by
  induction a with
  | nil => simp
  | cons c a' ih =>
    have hc := h c (by simp)
    rw [List.cons_append, scanLvl2_cons c _ hc.1 hc.2,
      ih fun y hy => h y (by simp [hy]), Option.map_map]
    rfl

theorem scanLvl1_close (x : List Char) : scanLvl 1 ('}' :: x) = some ['}'] := rfl

theorem scanLvl2_close (x : List Char) :
    scanLvl 2 ('}' :: x) = (scanLvl 1 x).map ('}' :: ·) := rfl

theorem scanLvl1_open (x : List Char) :
    scanLvl 1 ('{' :: x) = (scanLvl 2 x).map ('{' :: ·) := rfl

theorem scanLvl1_flat (b x : List Char) (hb : ∀ c ∈ b, c ≠ '{' ∧ c ≠ '}') :
    scanLvl 1 ('{' :: (b ++ '}' :: x)) =
      (scanLvl 1 x).map (fun t => '{' :: (b ++ '}' :: t)) := by
  rw [scanLvl1_open, scanLvl2_nb b _ hb, scanLvl2_close, Option.map_map,
    Option.map_map]
  rfl

theorem nb_quoted (s : String) (h : ∀ c ∈ s.toList, plainChar c = true) :
    ∀ c ∈ quoted s, c ≠ '{' ∧ c ≠ '}' := by
  intro c hc
  rcases (by simpa [quoted] using hc : c = '"' ∨ c ∈ s.data ∨ c = '"') with
    h2 | h2 | h2
  · subst h2; exact ⟨by decide, by decide⟩
  · exact ⟨plain_ne_lbrace (h c h2), plain_ne_rbrace (h c h2)⟩
  · subst h2; exact ⟨by decide, by decide⟩

theorem nb_append {a b : List Char}
    (ha : ∀ c ∈ a, c ≠ '{' ∧ c ≠ '}') (hb : ∀ c ∈ b, c ≠ '{' ∧ c ≠ '}') :
    ∀ c ∈ a ++ b, c ≠ '{' ∧ c ≠ '}' := by
  intro c hc
  rcases List.mem_append.mp hc with h | h
  · exact ha c h
  · exact hb c h

theorem nb_renderMember (k v : String)
    (hk : ∀ c ∈ k.toList, plainChar c = true)
    (hv : ∀ c ∈ v.toList, plainChar c = true) :
    ∀ c ∈ renderMember k v, c ≠ '{' ∧ c ≠ '}' := by
  intro c hc
  rcases (by simpa [renderMember] using hc :
      c ∈ quoted k ∨ c = ':' ∨ c ∈ quoted v) with h | h | h
  · exact nb_quoted k hk c h
  · subst h; exact ⟨by decide, by decide⟩
  · exact nb_quoted v hv c h

theorem nb_renderFields (fl : List (String × String))
    (hwf : ∀ kv ∈ fl, (∀ c ∈ kv.1.toList, plainChar c = true) ∧
      (∀ c ∈ kv.2.toList, plainChar c = true)) :
    ∀ c ∈ renderFields fl, c ≠ '{' ∧ c ≠ '}' := by
  induction fl with
  | nil => intro c hc; simp [renderFields] at hc
  | cons kv t ih =>
    obtain ⟨k, v⟩ := kv
    have hkv := hwf (k, v) (by simp)
    cases t with
    | nil =>
      intro c hc
      rw [show renderFields [(k, v)] = renderMember k v from rfl] at hc
      exact nb_renderMember k v hkv.1 hkv.2 c hc
    | cons kv2 t2 =>
      intro c hc
      rcases (by simpa [renderFields] using hc :
          c ∈ renderMember k v ∨ c = ',' ∨ c ∈ renderFields (kv2 :: t2)) with
        h | h | h
      · exact nb_renderMember k v hkv.1 hkv.2 c h
      · subst h; exact ⟨by decide, by decide⟩
      · exact ih (fun x hx => hwf x (by simp [hx])) c h


theorem nb_single (c0 : Char) (h1 : c0 ≠ '{') (h2 : c0 ≠ '}') :
    ∀ c ∈ [c0], c ≠ '{' ∧ c ≠ '}' := by
  intro c hc
  simp at hc
  subst hc
  exact ⟨h1, h2⟩

theorem scanRender (l : List (String × OVal)) (hwf : WFMembers l) :
    scanLvl 1 (renderOFields l ++ ['}']) = some (renderOFields l ++ ['}']) := by
  induction l with
  | nil => rfl
  | cons kv t ih =>
    obtain ⟨k, v⟩ := kv
    have hkv := hwf (k, v) (by simp)
    have iht := ih fun x hx => hwf x (by simp [hx])
    cases v with
    | s w =>
      have hnb : ∀ c ∈ renderOMember k (.s w), c ≠ '{' ∧ c ≠ '}' :=
        nb_renderMember k w hkv.1 hkv.2
      cases t with
      | nil =>
        rw [show renderOFields [(k, .s w)] = renderOMember k (.s w) from rfl,
          scanLvl1_nb _ _ hnb, scanLvl1_close]
        rfl
      | cons kv2 t2 =>
        rw [show renderOFields ((k, .s w) :: kv2 :: t2) ++ ['}'] =
            (renderOMember k (.s w) ++ [',']) ++
              (renderOFields (kv2 :: t2) ++ ['}']) by
          simp [renderOFields]]
        rw [scanLvl1_nb _ _
          (nb_append hnb (nb_single ',' (by decide) (by decide))), iht]
        simp
    | o fl =>
      have hnbk : ∀ c ∈ quoted k ++ [':'], c ≠ '{' ∧ c ≠ '}' :=
        nb_append (nb_quoted k hkv.1) (nb_single ':' (by decide) (by decide))
      have hnbf : ∀ c ∈ renderFields fl, c ≠ '{' ∧ c ≠ '}' :=
        nb_renderFields fl hkv.2.2
      cases t with
      | nil =>
        rw [show renderOFields [(k, .o fl)] ++ ['}'] =
            (quoted k ++ [':']) ++
              ('{' :: (renderFields fl ++ '}' :: ['}'])) by
          simp [renderOFields, renderOMember, renderOVal, renderFlat]]
        rw [scanLvl1_nb _ _ hnbk, scanLvl1_flat _ _ hnbf, scanLvl1_close]
        simp [renderOFields, renderOMember, renderOVal, renderFlat]
      | cons kv2 t2 =>
        rw [show renderOFields ((k, .o fl) :: kv2 :: t2) ++ ['}'] =
            (quoted k ++ [':']) ++
              ('{' :: (renderFields fl ++ '}' ::
                (',' :: (renderOFields (kv2 :: t2) ++ ['}'])))) by
          simp [renderOFields, renderOMember, renderOVal, renderFlat]]
        rw [scanLvl1_nb _ _ hnbk, scanLvl1_flat _ _ hnbf,
          scanLvl1_cons ',' _ (by decide) (by decide), iht]
        simp [renderOFields, renderOMember, renderOVal, renderFlat]

theorem searchOne_render (l : List (String × OVal)) (hwf : WFMembers l) :
    searchOne (renderObj l) = some (renderObj l) := by
  rw [show renderObj l = '{' :: (renderOFields l ++ ['}']) from by simp [renderObj]]
  show (match scanLvl 1 (renderOFields l ++ ['}']) with
    | some t => some ('{' :: t)
    | none => searchOne (renderOFields l ++ ['}'])) = _
  rw [scanRender l hwf]

theorem lastBrace_none (t : List Char) (h : '}' ∉ t) : lastBrace t = none := by
  induction t with
  | nil => rfl
  | cons c rest ih =>
    have hc : c ≠ '}' := fun hh => h (hh ▸ List.mem_cons_self c rest)
    unfold lastBrace
    rw [ih fun hh => h (List.mem_cons_of_mem c hh)]
    simp [hc]

theorem lastBrace_last (x t : List Char) (h : '}' ∉ t) :
    lastBrace (x ++ '}' :: t) = some (x ++ ['}']) := by
  induction x with
  | nil =>
    show lastBrace ('}' :: t) = _
    unfold lastBrace
    rw [lastBrace_none t h]
    simp
  | cons c x' ih =>
    show lastBrace (c :: (x' ++ '}' :: t)) = _
    unfold lastBrace
    rw [ih]
    simp

theorem searchGreedy_body (x t : List Char) (h : '}' ∉ t) :
    searchGreedy (('{' :: (x ++ ['}'])) ++ t) = some ('{' :: (x ++ ['}'])) := by
  show searchGreedy ('{' :: ((x ++ ['}']) ++ t)) = _
  show (match lastBrace ((x ++ ['}']) ++ t) with
    | some t2 => some ('{' :: t2)
    | none => searchGreedy ((x ++ ['}']) ++ t)) = _
  rw [show (x ++ ['}']) ++ t = x ++ '}' :: t by simp, lastBrace_last x t h]

theorem isPrefixOf_append_self (l x : List Char) : l.isPrefixOf (l ++ x) = true := by
  induction l with
  | nil => simp [List.isPrefixOf]
  | cons c rest ih => simp [List.isPrefixOf, ih]

theorem isPrefixOf_cons_false (a c : Char) (l1 l2 : List Char) (h : c ≠ a) :
    (a :: l1).isPrefixOf (c :: l2) = false := by
  simp [List.isPrefixOf]
  intro hc
  exact absurd hc.symm h

theorem dropThink_id (f : Nat) (cs : List Char) (h : ∀ c ∈ cs, c ≠ '<') :
    dropThinkF f cs = cs := by
  induction f generalizing cs with
  | zero => rfl
  | succ f ih =>
    cases cs with
    | nil => rfl
    | cons c rest =>
      have hc : c ≠ '<' := h c (by simp)
      unfold dropThinkF
      rw [show thinkOpen = '<' :: ['t', 'h', 'i', 'n', 'k', '>'] from rfl,
        isPrefixOf_cons_false _ _ _ _ hc]
      simp only [Bool.false_eq_true, if_false]
      rw [ih rest fun x hx => h x (by simp [hx])]

theorem findClose_skip (tc rest : List Char) (h : ∀ c ∈ tc, c ≠ '<') :
    findClose (tc ++ (thinkClose ++ rest)) = some rest := by
  induction tc with
  | nil =>
    simp only [List.nil_append]
    unfold findClose
    rw [show thinkClose ++ rest = '<' :: ('/' :: ('t' :: ('h' :: ('i' :: ('n' ::
      ('k' :: ('>' :: rest))))))) from by simp [thinkClose]]
    rw [show thinkClose = '<' :: ['/', 't', 'h', 'i', 'n', 'k', '>'] from rfl]
    simp [List.isPrefixOf]
  | cons c tc2 ih =>
    have hc : c ≠ '<' := h c (by simp)
    rw [List.cons_append]
    unfold findClose
    rw [show thinkClose = '<' :: ['/', 't', 'h', 'i', 'n', 'k', '>'] from rfl,
      isPrefixOf_cons_false _ _ _ _ hc]
    simp only [Bool.false_eq_true, if_false]
    exact ih fun x hx => h x (by simp [hx])

theorem dropThink_wrap (f : Nat) (tc rest : List Char)
    (htc : ∀ c ∈ tc, c ≠ '<') (hrest : ∀ c ∈ rest, c ≠ '<') :
    dropThinkF (f + 1) (thinkOpen ++ (tc ++ (thinkClose ++ rest))) = rest := by
  unfold dropThinkF
  rw [show thinkOpen ++ (tc ++ (thinkClose ++ rest)) =
    '<' :: ('t' :: ('h' :: ('i' :: ('n' :: ('k' :: ('>' ::
      (tc ++ (thinkClose ++ rest)))))))) from by simp [thinkOpen]]
  rw [show thinkOpen = ['<', 't', 'h', 'i', 'n', 'k', '>'] from rfl]
  simp only [List.isPrefixOf, beq_self_eq_true, Bool.and_self, if_true,
    List.drop_succ_cons, List.drop_zero]
  rw [findClose_skip tc rest htc]
  exact dropThink_id f rest hrest

theorem dtw (p : Char → Bool) (l : List Char) :
    l.drop (l.takeWhile p).length = l.dropWhile p := by
  induction l with
  | nil => rfl
  | cons c rest ih =>
    by_cases hc : p c
    · simp [List.takeWhile_cons, List.dropWhile_cons, hc, ih]
    · simp [List.takeWhile_cons, List.dropWhile_cons, hc]


theorem fence3_not_prefix (cs : List Char)
    (h : ∀ d, cs.head? = some d → d ≠ btick) :
    fence3.isPrefixOf cs = false := by
  cases cs with
  | nil => rfl
  | cons c rest =>
    exact isPrefixOf_cons_false btick c _ rest (h c rfl)

theorem fenceJson_not_prefix (cs : List Char)
    (h : ∀ d, cs.head? = some d → d ≠ btick) :
    fenceJson.isPrefixOf cs = false := by
  cases cs with
  | nil => rfl
  | cons c rest =>
    exact isPrefixOf_cons_false btick c _ rest (h c rfl)

theorem head?_mem {l : List Char} {d : Char} (h : l.head? = some d) : d ∈ l := by
  cases l with
  | nil => simp at h
  | cons c rest => simp at h; simp [h]

theorem stripFF_nil (f : Nat) : stripFF f [] = [] := by
  cases f <;> rfl

theorem stripFF_id (f : Nat) : ∀ cs : List Char, (∀ c ∈ cs, c ≠ btick) →
    stripFF f cs = cs := by
  induction f with
  | zero => intro cs _; rfl
  | succ f ih =>
    intro cs h
    cases cs with
    | nil => rfl
    | cons c rest =>
      have h1 : fenceJson.isPrefixOf (c :: rest) = false :=
        fenceJson_not_prefix _ fun d hd => by
          simp at hd; subst hd; exact h c (by simp)
      have h2 : fence3.isPrefixOf
          ((c :: rest).drop ((c :: rest).takeWhile pySpace).length) = false := by
        rw [dtw]
        refine fence3_not_prefix _ fun d hd => ?_
        have hdmem := head?_mem hd
        rw [← dtw] at hdmem
        exact h d (List.drop_subset _ _ hdmem)
      unfold stripFF
      simp only [h1, Bool.false_eq_true, if_false, h2]
      rw [ih rest fun x hx => h x (by simp [hx])]

theorem dropWhile_stops (xs ys : List Char) (h : ∃ x ∈ xs, pySpace x = false) :
    (xs ++ ys).dropWhile pySpace = xs.dropWhile pySpace ++ ys := by
  induction xs with
  | nil => obtain ⟨x, hx, -⟩ := h; simp at hx
  | cons x xs' ih =>
    by_cases hx : pySpace x
    · obtain ⟨w, hw, hwf⟩ := h
      have : w ∈ xs' := by
        rcases List.mem_cons.mp hw with h2 | h2
        · subst h2; rw [hx] at hwf; simp at hwf
        · exact h2
      simp only [List.cons_append, List.dropWhile_cons, hx, if_true]
      exact ih ⟨w, this, hwf⟩
    · simp only [List.cons_append, List.dropWhile_cons]
      simp [hx]

theorem dropWhile_all (xs ys : List Char) (h : ∀ x ∈ xs, pySpace x = true) :
    (xs ++ ys).dropWhile pySpace = ys.dropWhile pySpace := by
  induction xs with
  | nil => simp
  | cons x xs' ih =>
    simp only [List.cons_append, List.dropWhile_cons, h x (by simp), if_true]
    exact ih fun y hy => h y (by simp [hy])


theorem stripFF_step (f : Nat) (c : Char) (rest : List Char)
    (h1 : fenceJson.isPrefixOf (c :: rest) = false)
    (h2 : fence3.isPrefixOf ((c :: rest).dropWhile pySpace) = false) :
    stripFF (f + 1) (c :: rest) = c :: stripFF f rest := by
  conv_lhs => unfold stripFF
  simp only [h1, Bool.false_eq_true, if_false, dtw, h2]

theorem stripFF_ws_fence (f : Nat) (c : Char) (rest : List Char)
    (h1 : fenceJson.isPrefixOf (c :: rest) = false)
    (hm : fence3.isPrefixOf
      ((c :: rest).drop (((c :: rest).takeWhile pySpace).length)) = true) :
    stripFF (f + 1) (c :: rest) =
      stripFF f ((c :: rest).drop ((((c :: rest).takeWhile pySpace).length) + 3)) := by
  conv_lhs => unfold stripFF
  simp only [h1, Bool.false_eq_true, if_false, hm, if_true]

theorem stripFF_cons_fence (f : Nat) (c : Char) (rest : List Char)
    (h1 : fenceJson.isPrefixOf (c :: rest) = true) :
    stripFF (f + 1) (c :: rest) =
      stripFF f (((c :: rest).drop 7).dropWhile pySpace) := by
  conv_lhs => unfold stripFF
  simp only [h1, if_true]

theorem stripFF_tail (f : Nat) : stripFF (f + 1) ('\n' :: fence3) = [] := by
  rw [stripFF_ws_fence f '\n' fence3 (by decide) (by decide)]
  rw [show ('\n' :: fence3).drop
    (((('\n' :: fence3).takeWhile pySpace).length) + 3) = [] from by decide]
  exact stripFF_nil f

theorem stripFF_scan (a : List Char) : ∀ f : Nat, (∀ c ∈ a, c ≠ btick) →
    a.length + 2 ≤ f →
    stripFF f (a ++ '}' :: ('\n' :: fence3)) = a ++ ['}'] := by
  induction a with
  | nil =>
    intro f _ hlen
    obtain ⟨f1, rfl⟩ : ∃ f1, f = f1 + 1 + 1 := by
      cases f with
      | zero => omega
      | succ f2 =>
        cases f2 with
        | zero => omega
        | succ f1 => exact ⟨f1, rfl⟩
    simp only [List.nil_append]
    rw [stripFF_step (f1 + 1) '}' ('\n' :: fence3) (by decide) (by decide)]
    rw [stripFF_tail f1]
  | cons c a' ih =>
    intro f h hlen
    obtain ⟨f1, rfl⟩ : ∃ f1, f = f1 + 1 := by
      cases f with
      | zero => omega
      | succ f1 => exact ⟨f1, rfl⟩
    have hc : c ≠ btick := h c (by simp)
    have h1 : fenceJson.isPrefixOf (c :: (a' ++ '}' :: ('\n' :: fence3))) = false :=
      fenceJson_not_prefix _ fun d hd => by simp at hd; subst hd; exact hc
    have h2 : fence3.isPrefixOf
        ((c :: (a' ++ '}' :: ('\n' :: fence3))).dropWhile pySpace) = false := by
      by_cases hall : ∀ x ∈ c :: a', pySpace x = true
      · rw [show c :: (a' ++ '}' :: ('\n' :: fence3)) =
          (c :: a') ++ ('}' :: ('\n' :: fence3)) from by simp]
        rw [dropWhile_all _ _ hall]
        decide
      · have hex : ∃ x ∈ c :: a', pySpace x = false := by
          push_neg at hall
          obtain ⟨x, hx, hxf⟩ := hall
          exact ⟨x, hx, by revert hxf; cases pySpace x <;> simp⟩
        rw [show c :: (a' ++ '}' :: ('\n' :: fence3)) =
          (c :: a') ++ ('}' :: ('\n' :: fence3)) from by simp]
        rw [dropWhile_stops _ _ hex]
        cases hdw : (c :: a').dropWhile pySpace with
        | nil => simp [hdw]; decide
        | cons d0 ds =>
          have hd0 : d0 ∈ c :: a' := by
            have : d0 ∈ (c :: a').dropWhile pySpace := by rw [hdw]; simp
            rw [← dtw] at this
            exact List.drop_subset _ _ this
          rw [show (d0 :: ds) ++ ('}' :: ('\n' :: fence3)) =
            d0 :: (ds ++ ('}' :: ('\n' :: fence3))) from rfl]
          exact isPrefixOf_cons_false _ _ _ _ (h d0 hd0)
    rw [List.cons_append, stripFF_step f1 c _ h1 h2,
      ih f1 (fun x hx => h x (by simp [hx])) (by simp at hlen; omega)]
    rfl


theorem stripFF_fence (f : Nat) (a : List Char) (ha : ∀ c ∈ a, c ≠ btick)
    (hlen : a.length + 3 ≤ f) :
    stripFF (f + 1)
      (fenceJson ++ ('\n' :: (('{' :: a) ++ ('}' :: ('\n' :: fence3))))) =
      ('{' :: a) ++ ['}'] := by
  have hcons : fenceJson ++ ('\n' :: (('{' :: a) ++ ('}' :: ('\n' :: fence3)))) =
      btick :: ([btick, btick, 'j', 's', 'o', 'n'] ++
        ('\n' :: (('{' :: a) ++ ('}' :: ('\n' :: fence3))))) := rfl
  have hp : fenceJson.isPrefixOf (btick :: ([btick, btick, 'j', 's', 'o', 'n'] ++
      ('\n' :: (('{' :: a) ++ ('}' :: ('\n' :: fence3)))))) = true := by
    rw [← hcons]
    exact isPrefixOf_append_self fenceJson _
  rw [hcons, stripFF_cons_fence f btick _ hp]
  rw [show ((btick :: ([btick, btick, 'j', 's', 'o', 'n'] ++
      ('\n' :: (('{' :: a) ++ ('}' :: ('\n' :: fence3)))))).drop 7) =
    '\n' :: (('{' :: a) ++ ('}' :: ('\n' :: fence3))) from rfl]
  rw [show (('\n' :: (('{' :: a) ++ ('}' :: ('\n' :: fence3)))).dropWhile pySpace) =
    ('{' :: a) ++ ('}' :: ('\n' :: fence3)) from by
      simp [List.dropWhile_cons, pySpace]]
  refine stripFF_scan ('{' :: a) f ?_ (by simp; omega)
  intro c hc
  rcases List.mem_cons.mp hc with h | h
  · subst h; decide
  · exact ha c h

theorem stripJsonFence_nil (f : Nat) : stripJsonFence f [] = [] := by
  cases f <;> rfl

theorem stripJsonFence_step (f : Nat) (c : Char) (rest : List Char)
    (h1 : fenceJson.isPrefixOf (c :: rest) = false) :
    stripJsonFence (f + 1) (c :: rest) = c :: stripJsonFence f rest := by
  conv_lhs => unfold stripJsonFence
  simp only [h1, Bool.false_eq_true, if_false]

theorem stripJsonFence_skip (a : List Char) : ∀ (f : Nat) (x : List Char),
    (∀ c ∈ a, c ≠ btick) →
    stripJsonFence (a.length + f) (a ++ x) = a ++ stripJsonFence f x := by
  induction a with
  | nil => intro f x _; simp
  | cons c a' ih =>
    intro f x h
    have h1 : fenceJson.isPrefixOf (c :: (a' ++ x)) = false :=
      fenceJson_not_prefix _ fun d hd => by
        simp at hd; subst hd; exact h c (by simp)
    rw [show (c :: a').length + f = (a'.length + f) + 1 from by simp; omega]
    rw [List.cons_append, stripJsonFence_step _ c _ h1,
      ih f x fun y hy => h y (by simp [hy])]
    rfl

theorem isPrefixOf_length_le {l1 l2 : List Char} (h : l1.isPrefixOf l2 = true) :
    l1.length ≤ l2.length :=
  (List.isPrefixOf_iff_prefix.mp h).length_le

theorem stripJsonFence_short (f : Nat) : ∀ cs : List Char, cs.length < 7 →
    stripJsonFence f cs = cs := by
  induction f with
  | zero => intro cs _; rfl
  | succ f ih =>
    intro cs hlen
    cases cs with
    | nil => rfl
    | cons c rest =>
      have h1 : fenceJson.isPrefixOf (c :: rest) = false := by
        cases hp : fenceJson.isPrefixOf (c :: rest) with
        | false => rfl
        | true =>
          have := isPrefixOf_length_le hp
          simp [fenceJson] at this
          simp at hlen
          omega
      rw [stripJsonFence_step f c rest h1, ih rest (by simp at hlen; omega)]

theorem stripJsonFence_fence (f : Nat) (y : List Char) :
    stripJsonFence (f + 1) (fenceJson ++ ('\n' :: ('{' :: y))) =
      stripJsonFence f ('{' :: y) := by
  have hcons : fenceJson ++ ('\n' :: ('{' :: y)) =
      btick :: ([btick, btick, 'j', 's', 'o', 'n'] ++ ('\n' :: ('{' :: y))) := rfl
  have hp : fenceJson.isPrefixOf (btick :: ([btick, btick, 'j', 's', 'o', 'n'] ++
      ('\n' :: ('{' :: y)))) = true := by
    rw [← hcons]
    exact isPrefixOf_append_self fenceJson _
  rw [hcons]
  conv_lhs => unfold stripJsonFence
  simp only [hp, if_true]
  rw [show ((btick :: ([btick, btick, 'j', 's', 'o', 'n'] ++
      ('\n' :: ('{' :: y)))).drop 7) = '\n' :: ('{' :: y) from rfl]
  rw [show (('\n' :: ('{' :: y)).dropWhile pySpace) = '{' :: y from by
    simp [List.dropWhile_cons, pySpace]]

theorem stripFence2_nil (f : Nat) : stripFence2 f [] = [] := by
  cases f <;> rfl

theorem stripFence2_step (f : Nat) (c : Char) (rest : List Char)
    (h1 : fence3.isPrefixOf (c :: rest) = false) :
    stripFence2 (f + 1) (c :: rest) = c :: stripFence2 f rest := by
  conv_lhs => unfold stripFence2
  simp only [h1, Bool.false_eq_true, if_false]

theorem stripFence2_skip (a : List Char) : ∀ (f : Nat) (x : List Char),
    (∀ c ∈ a, c ≠ btick) →
    stripFence2 (a.length + f) (a ++ x) = a ++ stripFence2 f x := by
  induction a with
  | nil => intro f x _; simp
  | cons c a' ih =>
    intro f x h
    have h1 : fence3.isPrefixOf (c :: (a' ++ x)) = false :=
      fence3_not_prefix _ fun d hd => by
        simp at hd; subst hd; exact h c (by simp)
    rw [show (c :: a').length + f = (a'.length + f) + 1 from by simp; omega]
    rw [List.cons_append, stripFence2_step _ c _ h1,
      ih f x fun y hy => h y (by simp [hy])]
    rfl

theorem stripFence2_tail (f : Nat) :
    stripFence2 (f + 1 + 1) ('\n' :: fence3) = ['\n'] := by
  rw [stripFence2_step (f + 1) '\n' fence3 (by decide)]
  have hp : fence3.isPrefixOf fence3 = true := by decide
  conv_lhs => rw [show fence3 = btick :: [btick, btick] from rfl]
  conv_lhs => unfold stripFence2
  rw [show fence3.isPrefixOf (btick :: [btick, btick]) = true from by decide]
  simp only [if_true]
  rw [show (((btick :: [btick, btick]).drop 3).dropWhile pySpace) = [] from by decide]
  rw [stripFence2_nil f]

theorem plain_ne_btick {c : Char} (h : plainChar c = true) : c ≠ btick := by
  intro hc; subst hc; exact absurd h (by decide)

theorem plain_ne_lt {c : Char} (h : plainChar c = true) : c ≠ '<' := by
  intro hc; subst hc; exact absurd h (by decide)


theorem goodC_quoted (s : String) (h : ∀ c ∈ s.toList, plainChar c = true) :
    ∀ c ∈ quoted s, goodC c := by
  intro c hc
  rcases (by simpa [quoted] using hc : c = '"' ∨ c ∈ s.data ∨ c = '"') with
    h2 | h2 | h2
  · exact .inr (.inr (.inl h2))
  · exact .inr (.inr (.inr (.inr (.inr (h c h2)))))
  · exact .inr (.inr (.inl h2))

theorem goodC_renderFields (fl : List (String × String))
    (hwf : ∀ kv ∈ fl, (∀ c ∈ kv.1.toList, plainChar c = true) ∧
      (∀ c ∈ kv.2.toList, plainChar c = true)) :
    ∀ c ∈ renderFields fl, goodC c := by
  induction fl with
  | nil => intro c hc; simp [renderFields] at hc
  | cons kv t ih =>
    obtain ⟨k, v⟩ := kv
    have hkv := hwf (k, v) (by simp)
    have hmem : ∀ c ∈ renderMember k v, goodC c := by
      intro c hc
      rcases (by simpa [renderMember] using hc :
          c ∈ quoted k ∨ c = ':' ∨ c ∈ quoted v) with h | h | h
      · exact goodC_quoted k hkv.1 c h
      · exact .inr (.inr (.inr (.inl h)))
      · exact goodC_quoted v hkv.2 c h
    cases t with
    | nil =>
      intro c hc
      rw [show renderFields [(k, v)] = renderMember k v from rfl] at hc
      exact hmem c hc
    | cons kv2 t2 =>
      intro c hc
      rcases (by simpa [renderFields] using hc :
          c ∈ renderMember k v ∨ c = ',' ∨ c ∈ renderFields (kv2 :: t2)) with
        h | h | h
      · exact hmem c h
      · exact .inr (.inr (.inr (.inr (.inl h))))
      · exact ih (fun x hx => hwf x (by simp [hx])) c h

theorem goodC_renderOFields (l : List (String × OVal)) (hwf : WFMembers l) :
    ∀ c ∈ renderOFields l, goodC c := by
  induction l with
  | nil => intro c hc; simp [renderOFields] at hc
  | cons kv t ih =>
    obtain ⟨k, v⟩ := kv
    have hkv := hwf (k, v) (by simp)
    have hmem : ∀ c ∈ renderOMember k v, goodC c := by
      intro c hc
      rcases (by simpa [renderOMember] using hc :
          c ∈ quoted k ∨ c = ':' ∨ c ∈ renderOVal v) with h | h | h
      · exact goodC_quoted k hkv.1 c h
      · exact .inr (.inr (.inr (.inl h)))
      · cases v with
        | s w => exact goodC_quoted w hkv.2 c h
        | o fl =>
          rcases (by simpa [renderOVal, renderFlat] using h :
              c = '{' ∨ c ∈ renderFields fl ∨ c = '}') with h2 | h2 | h2
          · exact .inl h2
          · exact goodC_renderFields fl hkv.2.2 c h2
          · exact .inr (.inl h2)
    cases t with
    | nil =>
      intro c hc
      rw [show renderOFields [(k, v)] = renderOMember k v from rfl] at hc
      exact hmem c hc
    | cons kv2 t2 =>
      intro c hc
      rcases (by simpa [renderOFields] using hc :
          c ∈ renderOMember k v ∨ c = ',' ∨ c ∈ renderOFields (kv2 :: t2)) with
        h | h | h
      · exact hmem c h
      · exact .inr (.inr (.inr (.inr (.inl h))))
      · exact ih (fun x hx => hwf x (by simp [hx])) c h

theorem render_btFree (l : List (String × OVal)) (hwf : WFMembers l) :
    ∀ c ∈ renderObj l, c ≠ btick := by
  intro c hc
  rcases (by simpa [renderObj] using hc :
      c = '{' ∨ c ∈ renderOFields l ∨ c = '}') with h | h | h
  · subst h; decide
  · rcases goodC_renderOFields l hwf c h with h2 | h2 | h2 | h2 | h2 | h2
    · subst h2; decide
    · subst h2; decide
    · subst h2; decide
    · subst h2; decide
    · subst h2; decide
    · exact plain_ne_btick h2
  · subst h; decide

theorem render_ltFree (l : List (String × OVal)) (hwf : WFMembers l) :
    ∀ c ∈ renderObj l, c ≠ '<' := by
  intro c hc
  rcases (by simpa [renderObj] using hc :
      c = '{' ∨ c ∈ renderOFields l ∨ c = '}') with h | h | h
  · subst h; decide
  · rcases goodC_renderOFields l hwf c h with h2 | h2 | h2 | h2 | h2 | h2
    · subst h2; decide
    · subst h2; decide
    · subst h2; decide
    · subst h2; decide
    · subst h2; decide
    · exact plain_ne_lt h2
  · subst h; decide

theorem cleanFast_wrap (l : List (String × OVal)) (think : Option (List Char))
    (fence : Bool) (hwf : WFMembers l)
    (hsafe : ∀ tc, think = some tc → SafeThink tc) :
    cleanFast (wrapRaw think fence (renderObj l)) = renderObj l := by
  have hblt := render_btFree l hwf
  have hllt := render_ltFree l hwf
  -- the reasoning-block-free part of the raw text
  set rest0 : List Char :=
    (if fence then fenceJson ++ ['\n'] else []) ++ renderObj l ++
      (if fence then '\n' :: fence3 else []) with hrest0
  have hrest0lt : ∀ c ∈ rest0, c ≠ '<' := by
    intro c hc
    rw [hrest0] at hc
    rcases List.mem_append.mp hc with h | h
    · rcases List.mem_append.mp h with h2 | h2
      · cases fence with
        | true =>
          rcases (by simpa [fenceJson] using h2 :
              c = btick ∨ c = btick ∨ c = btick ∨ c = 'j' ∨ c = 's' ∨
              c = 'o' ∨ c = 'n' ∨ c = '\n') with
            h3 | h3 | h3 | h3 | h3 | h3 | h3 | h3 <;> subst h3 <;> decide
        | false => simp at h2
      · exact hllt c h2
    · cases fence with
      | true =>
        rcases (by simpa [fence3] using h :
            c = '\n' ∨ c = btick ∨ c = btick ∨ c = btick) with
          h3 | h3 | h3 | h3 <;> subst h3 <;> decide
      | false => simp at h
  have hdrop : dropThinkF (wrapRaw think fence (renderObj l)).length
      (wrapRaw think fence (renderObj l)) = rest0 := by
    cases think with
    | none =>
      rw [show wrapRaw none fence (renderObj l) = rest0 from by
        simp [wrapRaw, hrest0]]
      exact dropThink_id _ rest0 hrest0lt
    | some tc =>
      have htc := hsafe tc rfl
      have hshape : wrapRaw (some tc) fence (renderObj l) =
          thinkOpen ++ (tc ++ (thinkClose ++ rest0)) := by
        simp [wrapRaw, hrest0]
      rw [hshape]
      have hlen : (thinkOpen ++ (tc ++ (thinkClose ++ rest0))).length =
          (thinkOpen ++ (tc ++ (thinkClose ++ rest0))).length - 1 + 1 := by
        simp [thinkOpen, thinkClose]
      rw [hlen, dropThink_wrap _ tc rest0 (fun c hc => (htc c hc).1) hrest0lt]
  unfold cleanFast
  rw [hdrop]
  cases fence with
  | false =>
    show stripFF rest0.length rest0 = renderObj l
    rw [show rest0 = renderObj l from by simp [hrest0]]
    exact stripFF_id _ _ hblt
  | true =>
    have hshape2 : rest0 = fenceJson ++
        ('\n' :: (('{' :: renderOFields l) ++ ('}' :: ('\n' :: fence3)))) := by
      simp [hrest0, renderObj]
    have hlen2 : rest0.length = ((renderOFields l).length + 13) + 1 := by
      rw [hshape2]
      simp [fenceJson, fence3]
    show stripFF rest0.length rest0 = renderObj l
    rw [hlen2, hshape2]
    rw [stripFF_fence ((renderOFields l).length + 13) (renderOFields l)
      (fun c hc => hblt c (by simp [renderObj, hc])) (by omega)]
    simp [renderObj]

theorem stripJsonFence_id (f : Nat) : ∀ cs : List Char, (∀ c ∈ cs, c ≠ btick) →
    stripJsonFence f cs = cs := by
  induction f with
  | zero => intro cs _; rfl
  | succ f ih =>
    intro cs h
    cases cs with
    | nil => rfl
    | cons c rest =>
      have h1 : fenceJson.isPrefixOf (c :: rest) = false :=
        fenceJson_not_prefix _ fun d hd => by
          simp at hd; subst hd; exact h c (by simp)
      rw [stripJsonFence_step f c rest h1,
        ih rest fun x hx => h x (by simp [hx])]

theorem stripFence2_id (f : Nat) : ∀ cs : List Char, (∀ c ∈ cs, c ≠ btick) →
    stripFence2 f cs = cs := by
  induction f with
  | zero => intro cs _; rfl
  | succ f ih =>
    intro cs h
    cases cs with
    | nil => rfl
    | cons c rest =>
      have h1 : fence3.isPrefixOf (c :: rest) = false :=
        fence3_not_prefix _ fun d hd => by
          simp at hd; subst hd; exact h c (by simp)
      rw [stripFence2_step f c rest h1,
        ih rest fun x hx => h x (by simp [hx])]

theorem stripJsonFence_wrap (T : List Char) (l : List (String × OVal))
    (hT : ∀ c ∈ T, c ≠ btick) (hwf : WFMembers l) :
    stripJsonFence
        (T ++ (fenceJson ++ ('\n' :: (renderObj l ++ ('\n' :: fence3))))).length
        (T ++ (fenceJson ++ ('\n' :: (renderObj l ++ ('\n' :: fence3))))) =
      T ++ (renderObj l ++ ('\n' :: fence3)) := by
  have hblt := render_btFree l hwf
  set X : List Char := fenceJson ++ ('\n' :: (renderObj l ++ ('\n' :: fence3)))
    with hX
  rw [show (T ++ X).length = T.length + X.length from by simp]
  rw [stripJsonFence_skip T X.length X hT]
  congr 1
  have hXshape : X = fenceJson ++
      ('\n' :: ('{' :: (renderOFields l ++ ('}' :: ('\n' :: fence3))))) := by
    simp [hX, renderObj]
  have hXlen : X.length = ((renderOFields l).length + 13) + 1 := by
    rw [hXshape]; simp [fenceJson, fence3]
  rw [hXlen, hXshape, stripJsonFence_fence ((renderOFields l).length + 13)
    (renderOFields l ++ ('}' :: ('\n' :: fence3)))]
  rw [show '{' :: (renderOFields l ++ ('}' :: ('\n' :: fence3))) =
      renderObj l ++ ('\n' :: fence3) from by simp [renderObj]]
  rw [show (renderOFields l).length + 13 = (renderObj l).length + 11 from by
    simp [renderObj]]
  rw [stripJsonFence_skip (renderObj l) 11 ('\n' :: fence3) hblt]
  rw [stripJsonFence_short 11 ('\n' :: fence3) (by decide)]

theorem stripFence2_wrap (A : List Char) (hA : ∀ c ∈ A, c ≠ btick) :
    stripFence2 (A ++ ('\n' :: fence3)).length (A ++ ('\n' :: fence3)) =
      A ++ ['\n'] := by
  rw [show (A ++ ('\n' :: fence3)).length = A.length + (2 + 1 + 1) from by
    simp [fence3]]
  rw [stripFence2_skip A (2 + 1 + 1) ('\n' :: fence3) hA]
  rw [stripFence2_tail 2]

theorem cleanSimple_wrap (l : List (String × OVal)) (think : Option (List Char))
    (fence : Bool) (hwf : WFMembers l)
    (hsafe : ∀ tc, think = some tc → SafeThink tc) :
    cleanSimple (wrapRaw think fence (renderObj l)) =
      renderObj l ++ (if fence then ['\n'] else []) := by
  have hblt := render_btFree l hwf
  have hllt := render_ltFree l hwf
  set T : List Char :=
    think.elim [] (fun tc => thinkOpen ++ tc ++ thinkClose) with hT
  have hTbt : ∀ c ∈ T, c ≠ btick := by
    intro c hc
    rw [hT] at hc
    cases think with
    | none => simp [Option.elim] at hc
    | some tc =>
      have htc := hsafe tc rfl
      have hc2 : c ∈ thinkOpen ++ tc ++ thinkClose := hc
      rcases List.mem_append.mp hc2 with h | h
      · rcases List.mem_append.mp h with h2 | h2
        · rcases (by simpa [thinkOpen] using h2 : c = '<' ∨ c = 't' ∨ c = 'h' ∨
            c = 'i' ∨ c = 'n' ∨ c = 'k' ∨ c = '>') with
            h3 | h3 | h3 | h3 | h3 | h3 | h3 <;> subst h3 <;> decide
        · exact (htc c h2).2
      · rcases (by simpa [thinkClose] using h : c = '<' ∨ c = '/' ∨ c = 't' ∨
          c = 'h' ∨ c = 'i' ∨ c = 'n' ∨ c = 'k' ∨ c = '>') with
          h3 | h3 | h3 | h3 | h3 | h3 | h3 | h3 <;> subst h3 <;> decide
  have hwshape : wrapRaw think fence (renderObj l) =
      T ++ ((if fence then fenceJson ++ ['\n'] else []) ++ (renderObj l ++
        (if fence then '\n' :: fence3 else []))) := by
    rw [hT]
    cases think <;> simp [wrapRaw, Option.elim]
  cases fence with
  | false =>
    have hcs : wrapRaw think false (renderObj l) = T ++ renderObj l := by
      rw [hwshape]; simp
    have hbt2 : ∀ c ∈ T ++ renderObj l, c ≠ btick := by
      intro c hc
      rcases List.mem_append.mp hc with h | h
      · exact hTbt c h
      · exact hblt c h
    have h1 : stripJsonFence (wrapRaw think false (renderObj l)).length
        (wrapRaw think false (renderObj l)) = T ++ renderObj l := by
      rw [hcs]; exact stripJsonFence_id _ _ hbt2
    have h2 : stripFence2 (T ++ renderObj l).length (T ++ renderObj l) =
        T ++ renderObj l := stripFence2_id _ _ hbt2
    have h3 : dropThinkF (T ++ renderObj l).length (T ++ renderObj l) =
        renderObj l := by
      rw [hT]
      cases think with
      | none =>
        simpa [Option.elim] using
          dropThink_id (renderObj l).length (renderObj l) hllt
      | some tc =>
        have htc := hsafe tc rfl
        show dropThinkF ((thinkOpen ++ tc ++ thinkClose) ++ renderObj l).length
          ((thinkOpen ++ tc ++ thinkClose) ++ renderObj l) = renderObj l
        have hshape : (thinkOpen ++ tc ++ thinkClose) ++ renderObj l =
            thinkOpen ++ (tc ++ (thinkClose ++ renderObj l)) := by simp
        rw [hshape]
        have hlen : (thinkOpen ++ (tc ++ (thinkClose ++ renderObj l))).length =
            (thinkOpen ++ (tc ++ (thinkClose ++ renderObj l))).length - 1 + 1 := by
          simp [thinkOpen]
        rw [hlen]
        exact dropThink_wrap _ tc _ (fun c hc => (htc c hc).1) hllt
    show dropThinkF
        (stripFence2 (stripJsonFence (wrapRaw think false (renderObj l)).length
            (wrapRaw think false (renderObj l))).length
          (stripJsonFence (wrapRaw think false (renderObj l)).length
            (wrapRaw think false (renderObj l)))).length
        (stripFence2 (stripJsonFence (wrapRaw think false (renderObj l)).length
            (wrapRaw think false (renderObj l))).length
          (stripJsonFence (wrapRaw think false (renderObj l)).length
            (wrapRaw think false (renderObj l)))) = _
    rw [h1, h2, h3]
    simp
  | true =>
    have hcs : wrapRaw think true (renderObj l) =
        T ++ (fenceJson ++ ('\n' :: (renderObj l ++ ('\n' :: fence3)))) := by
      rw [hwshape]; simp
    have h1 : stripJsonFence (wrapRaw think true (renderObj l)).length
        (wrapRaw think true (renderObj l)) =
        T ++ (renderObj l ++ ('\n' :: fence3)) := by
      rw [hcs]; exact stripJsonFence_wrap T l hTbt hwf
    have h2 : stripFence2 (T ++ (renderObj l ++ ('\n' :: fence3))).length
        (T ++ (renderObj l ++ ('\n' :: fence3))) =
        T ++ (renderObj l ++ ['\n']) := by
      have hstep := stripFence2_wrap (T ++ renderObj l) (fun c hc => by
        rcases List.mem_append.mp hc with h | h
        · exact hTbt c h
        · exact hblt c h)
      simpa [List.append_assoc] using hstep
    have hlt2 : ∀ c ∈ renderObj l ++ ['\n'], c ≠ '<' := by
      intro c hc
      rcases List.mem_append.mp hc with h | h
      · exact hllt c h
      · simp at h; subst h; decide
    have h3 : dropThinkF (T ++ (renderObj l ++ ['\n'])).length
        (T ++ (renderObj l ++ ['\n'])) = renderObj l ++ ['\n'] := by
      rw [hT]
      cases think with
      | none =>
        simpa [Option.elim] using dropThink_id (renderObj l ++ ['\n']).length
          (renderObj l ++ ['\n']) hlt2
      | some tc =>
        have htc := hsafe tc rfl
        show dropThinkF
          ((thinkOpen ++ tc ++ thinkClose) ++ (renderObj l ++ ['\n'])).length
          ((thinkOpen ++ tc ++ thinkClose) ++ (renderObj l ++ ['\n'])) =
          renderObj l ++ ['\n']
        have hshape :
            (thinkOpen ++ tc ++ thinkClose) ++ (renderObj l ++ ['\n']) =
            thinkOpen ++ (tc ++ (thinkClose ++ (renderObj l ++ ['\n']))) := by
          simp
        rw [hshape]
        have hlen :
            (thinkOpen ++ (tc ++ (thinkClose ++
              (renderObj l ++ ['\n'])))).length =
            (thinkOpen ++ (tc ++ (thinkClose ++
              (renderObj l ++ ['\n'])))).length - 1 + 1 := by
          simp [thinkOpen]
        rw [hlen]
        exact dropThink_wrap _ tc _ (fun c hc => (htc c hc).1) hlt2
    show dropThinkF
        (stripFence2 (stripJsonFence (wrapRaw think true (renderObj l)).length
            (wrapRaw think true (renderObj l))).length
          (stripJsonFence (wrapRaw think true (renderObj l)).length
            (wrapRaw think true (renderObj l)))).length
        (stripFence2 (stripJsonFence (wrapRaw think true (renderObj l)).length
            (wrapRaw think true (renderObj l))).length
          (stripJsonFence (wrapRaw think true (renderObj l)).length
            (wrapRaw think true (renderObj l)))) = _
    rw [h1, h2, h3]
    simp

/-- C1: for every raw model text consisting of a single well-formed JSON
object (with at most one level of brace nesting and fence- and marker-free
content), optionally wrapped in a reasoning block and/or json Markdown code
fences, both normalizers return exactly the mapping obtained by strictly
parsing that object: the strict parse of the rendered object is its Python
value, and both the fast and the simple parse of the wrapped text recover
that same value (parse(wrap(json)) == json). -/
theorem c1_normalizer_roundtrip (l : List (String × OVal))
    (think : Option (List Char)) (fence : Bool) (hwf : WFObj l)
    (hsafe : ∀ tc, think = some tc → SafeThink tc) :
    jsonParse (renderObj l) = some (.dict (objPy l)) ∧
    pyFastParse (wrapRaw think fence (renderObj l)) = objPy l ∧
    pySimpleParse (wrapRaw think fence (renderObj l)) = objPy l := by
  obtain ⟨hnd, hwfm⟩ := hwf
  have hjson := jsonParse_render l hnd hwfm
  refine ⟨hjson, ?_, ?_⟩
  · have hclean := cleanFast_wrap l think fence hwfm hsafe
    have hloc := searchOne_render l hwfm
    show (match searchOne (cleanFast (wrapRaw think fence (renderObj l))) with
      | some span =>
        match jsonParse span with
        | some (PyVal.dict d) => d
        | _ =>
          [("type", .str "document"), ("confidence", .num (1 / 2)),
           ("raw", .str (String.mk
             ((cleanFast (wrapRaw think fence (renderObj l))).take 200)))]
      | none =>
        [("type", .str "document"), ("confidence", .num (3 / 5)),
         ("main_content", .str (String.mk
           ((cleanFast (wrapRaw think fence (renderObj l))).take 200)))]) =
      objPy l
    rw [hclean, hloc]
    show (match jsonParse (renderObj l) with
      | some (PyVal.dict d) => d
      | _ =>
        [("type", .str "document"), ("confidence", .num (1 / 2)),
         ("raw", .str (String.mk ((renderObj l).take 200)))]) = objPy l
    rw [hjson]
  · have hcleanS := cleanSimple_wrap l think fence hwfm hsafe
    have ht : '}' ∉ (if fence then ['\n'] else ([] : List Char)) := by
      cases fence <;> simp
    have hgr : searchGreedy (renderObj l ++ (if fence then ['\n'] else [])) =
        some (renderObj l) := by
      have hb := searchGreedy_body (renderOFields l)
        (if fence then ['\n'] else []) ht
      simpa [renderObj] using hb
    show (match searchGreedy (cleanSimple (wrapRaw think fence (renderObj l))) with
      | some span =>
        match jsonParse span with
        | some (PyVal.dict d) => d
        | _ => [("raw_content", .str (String.mk
            (cleanSimple (wrapRaw think fence (renderObj l)))))]
      | none => [("raw_content", .str (String.mk
          (cleanSimple (wrapRaw think fence (renderObj l)))))]) = objPy l
    rw [hcleanS, hgr]
    show (match jsonParse (renderObj l) with
      | some (PyVal.dict d) => d
      | _ => [("raw_content", .str (String.mk
          (renderObj l ++ (if fence then ['\n'] else []))))]) = objPy l
    rw [hjson]

/-- Witness for the round-trip: the concrete object with one nested level,
wrapped in both a reasoning block and json fences. -/
theorem c1_roundtrip_instance :
    jsonParse (renderObj c1obj) = some (.dict (objPy c1obj)) ∧
    pyFastParse (wrapRaw (some c1think) true (renderObj c1obj)) = objPy c1obj ∧
    pySimpleParse (wrapRaw (some c1think) true (renderObj c1obj)) = objPy c1obj :=
  c1_normalizer_roundtrip c1obj (some c1think) true
    (by
      refine ⟨by decide, ?_⟩
      intro kv hkv
      rcases (by simpa [c1obj] using hkv : kv = ("type", OVal.s "invoice") ∨
          kv = ("confidence", OVal.s "high") ∨
          kv = ("key_data", OVal.o [("field", "value"), ("total", "500")])) with
        h | h | h <;> subst h
      · exact ⟨by decide,
          (by decide : ∀ c ∈ "invoice".toList, plainChar c = true)⟩
      · exact ⟨by decide,
          (by decide : ∀ c ∈ "high".toList, plainChar c = true)⟩
      · exact ⟨by decide, by decide, by decide⟩)
    (fun tc htc => by
      cases htc
      show ∀ c ∈ c1think, c ≠ '<' ∧ c ≠ btick
      decide)
